import Mathlib

/-!
BIRD client (`client/client.c`): session protocol engine

A shallow embedding of the reply classifier (`server_got_reply`), the pager
(`more`), the frame decoder (`server_read`), the command writer
(`server_send`, `wait_for_write`) and the startup sequence (`init_commands`).

Conventions of the embedding

* a `char` / `byte` is a `Nat` (its value as `unsigned char`); a C string is the
  list of its characters before the terminating NUL, and `x[i]` past the end of
  the list reads that NUL (`List.getD x i 0`);
* the `int` globals are `Int` fields of `Client`; no arithmetic of the client
  comes near the limits of `int`, except the `%d` conversion, see `store_int`;
* what the process reads from its environment is an explicit stream: the keys
  `getchar()` returns, the results of `read`, `write` and `select`;
* a call either returns, or ends the process (`exit`, `die`), or never returns
  (`hang`), or has no defined behaviour (`undefined`).
-/

namespace BirdClient

/-- The bytes of a string literal. -/
def bytes (s : String) : List Nat := s.toList.map Char.toNat

/-- How a call of a C function of the client ends. -/
inductive Outcome (α : Type) where
  /-- the call returns -/
  | ret (a : α)
  /-- the process ends through `exit(status)` -/
  | exit (status : Int)
  /-- the process ends through `die()` / `DIE()` with a diagnostic -/
  | die
  /-- the call blocks for ever: the environment delivers nothing more -/
  | hang
  /-- the C standard gives the execution no meaning (division by zero) -/
  | undefined
  deriving DecidableEq

/-- Sequencing: the rest of the code runs only when the call returns. -/
def Outcome.bind {α β : Type} (o : Outcome α) (f : α → Outcome β) : Outcome β :=
  match o with
  | .ret a => f a
  | .exit st => .exit st
  | .die => .die
  | .hang => .hang
  | .undefined => .undefined

/-- The capacity of the read buffer, `#define SERVER_READ_BUF_LEN 4096`. -/
def SERVER_READ_BUF_LEN : Nat := 4096

/-- What one `read(server_fd, server_read_pos, ...)` call gives: `c > 0` bytes
stored at `server_read_pos`, or `c = 0`, or `c < 0` with `errno` being `EINTR`
or something else. -/
inductive ReadResult where
  | data (bs : List Nat)
  | eof
  | eintr
  | error
  deriving DecidableEq

/-- What one `write(server_fd, z, l)` call gives: `cnt >= 0` bytes accepted, or
`cnt < 0` with `errno` being `EAGAIN`, `EINTR` or something else. -/
inductive WriteResult where
  | wrote (cnt : Nat)
  | eagain
  | eintr
  | error
  deriving DecidableEq

/-- What one `select` call of `wait_for_write` gives: `rv >= 0` with the socket
in the returned set or not, or `rv < 0` with `errno` being `EINTR` or something
else. -/
inductive SelectResult where
  | ready
  | notready
  | eintr
  | error
  deriving DecidableEq

/-- The globals of `client.c`, with the terminal and the socket as the client
sees them.  `server_read_buf` holds the bytes `server_read_buf[0 ..
server_read_pos)`, so its length is the offset of `server_read_pos`. -/
structure Client where
  verbose : Int
  restricted : Int
  once : Int
  init_cmd : Option (List Nat)
  server_read_buf : List Nat
  init : Int
  busy : Int
  interactive : Int
  last_code : Int
  num_lines : Int
  skip_input : Int
  term_lns : Int
  term_cls : Int
  /-- everything written to standard output so far -/
  stdout : List Nat
  /-- the results of the coming `getchar()` calls (`-1` is `EOF`) -/
  keys : List Int
  /-- every byte the socket accepted from `write` so far -/
  wire : List Nat
  /-- the results of the coming `read` calls on the socket -/
  reads : List ReadResult
  /-- the results of the coming `write` calls on the socket -/
  writes : List WriteResult
  /-- the results of the coming `select` calls of `wait_for_write` -/
  selects : List SelectResult
  deriving DecidableEq

/-- The values of the globals when `main` starts: `init = 1`, `busy = 1`,
`server_read_pos = server_read_buf`, everything else zero. -/
def Client.initial : Client :=
  { verbose := 0, restricted := 0, once := 0, init_cmd := none,
    server_read_buf := [], init := 1, busy := 1, interactive := 0,
    last_code := 0, num_lines := 0, skip_input := 0, term_lns := 0,
    term_cls := 0, stdout := [], keys := [], wire := [], reads := [],
    writes := [], selects := [] }

/-! ## `sscanf(x, "%d", &code)` -/

/-- The function `isspace` in the C locale: space, `\t`, `\n`, `\v`, `\f`, `\r`. -/
def isspace (c : Nat) : Bool := c = 32 || (9 ≤ c && c ≤ 13)

/-- The function `isdigit`. -/
def isdigit (c : Nat) : Bool := 48 ≤ c && c ≤ 57

/-- The value of the longest run of decimal digits at the head of the input,
accumulated left to right from `acc`. -/
def scan_digits (acc : Nat) : List Nat → Nat
  | [] => acc
  | c :: cs => if isdigit c then scan_digits (10 * acc + (c - 48)) cs else acc

/-- How a `%d` result is stored into an `int`.  A value outside the range of
`int` has no behaviour defined by the C standard; this is what glibc does where
`long` has 64 bits: `strtol` saturates at the limits of `long` and the result
is truncated to 32 bits.  A value inside the range of `int` is stored as it is. -/
def store_int (v : Int) : Int :=
  let l : Int := if v > 2 ^ 63 - 1 then 2 ^ 63 - 1 else if v < -(2 ^ 63) then -(2 ^ 63) else v
  (l + 2 ^ 31) % 2 ^ 32 - 2 ^ 31

/-- The conversion `sscanf(x, "%d", &code)`: leading white space is skipped, an
optional sign is read, then at least one decimal digit.  `some code` when
`sscanf` returns 1 (with the value stored), `none` when it returns 0 or `EOF`. -/
def sscanf_d (x : List Nat) : Option Int :=
  match x.dropWhile isspace with
  | [] => none
  | c :: cs =>
    if c = 45 then          -- a minus sign
      match cs with
      | [] => none
      | d :: _ => if isdigit d then some (store_int (-(scan_digits 0 cs : Int))) else none
    else if c = 43 then     -- a plus sign
      match cs with
      | [] => none
      | d :: _ => if isdigit d then some (store_int (scan_digits 0 cs)) else none
    else if isdigit c then some (store_int (scan_digits 0 (c :: cs)))
    else none

/-! ## Output: `PRINTF` and `more` -/

/-- The macro
`#define PRINTF(LEN, PARGS...) do { if (!skip_input) len = printf(PARGS); } while(0)`
with `len` initialised to 0: the text goes to standard output and `len` is the
number of characters `printf` wrote, unless `skip_input` is set. -/
def PRINTF (s : Client) (text : List Nat) : Client × Int :=
  if s.skip_input = 0 then ({ s with stdout := s.stdout ++ text }, (text.length : Int))
  else (s, 0)

/-- The `redo:` loop of `more`: one `getchar()` per turn. -/
def more_redo (s : Client) : List Int → Outcome Client
  | [] => .hang
  | k :: ks =>
    if k = 32 then .ret { s with num_lines := 2, keys := ks }
    else if k = 10 ∨ k = 13 then .ret { s with num_lines := s.num_lines - 1, keys := ks }
    else if k = 113 then .ret { s with skip_input := 1, keys := ks }
    else more_redo s ks

/-- The function `more()`.  `more_begin` and `more_end` belong to the terminal front end
(`birdc.c` / `birdcl.c`) and touch none of the globals of `client.c`. -/
def more (s : Client) : Outcome Client :=
  let s1 := { s with stdout := s.stdout ++ bytes "--More--\r" }
  (more_redo s1 s1.keys).bind fun s2 =>
    .ret { s2 with stdout := s2.stdout ++ bytes "        \r" }

/-! ## `server_got_reply` -/

/-- The condition of the third branch of `server_got_reply`,
`strlen(x) > 4 && sscanf(x, "%d", &code) == 1 && code >= 0 && code < 10000 &&
(x[4] == ' ' || x[4] == '-')`, with the value of `code` when it holds. -/
def reply_code (x : List Nat) : Option Int :=
  if x.length > 4 then
    match sscanf_d x with
    | some code =>
      if code ≥ 0 ∧ code < 10000 ∧ (x.getD 4 0 = 32 ∨ x.getD 4 0 = 45) then some code
      else none
    | none => none
  else none

/-- The tail of `server_got_reply`, after the branches:
`if (interactive && busy && !skip_input && !init && (len > 0)) ...`. -/
def pager (s : Client) (len : Int) : Outcome Client :=
  if s.interactive ≠ 0 ∧ s.busy ≠ 0 ∧ s.skip_input = 0 ∧ s.init = 0 ∧ len > 0 then
    if s.term_cls = 0 then .undefined
    else
      let s1 := { s with num_lines := s.num_lines + Int.tdiv (len + s.term_cls - 1) s.term_cls }
      if s1.num_lines ≥ s1.term_lns then more s1 else .ret s1
  else .ret s

/-- The function `server_got_reply(x)`. -/
def server_got_reply (s : Client) (x : List Nat) : Outcome Client :=
  if x.getD 0 0 = 43 then            -- '+': async reply
    let r := PRINTF s (bytes ">>> " ++ x.drop 1 ++ [10])
    pager r.1 r.2
  else if x.getD 0 0 = 32 then       -- ' ': continuation
    let r := PRINTF s ((if s.verbose ≠ 0 then bytes "     " else []) ++ x.drop 1 ++ [10])
    pager r.1 r.2
  else
    match reply_code x with
    | some code =>
      let r := if code ≠ 0 then PRINTF s ((if s.verbose ≠ 0 then x else x.drop 5) ++ [10])
               else (s, 0)
      let s1 := { r.1 with last_code := code }
      if x.getD 4 0 = 32 then .ret { s1 with busy := 0, skip_input := 0 }
      else pager s1 r.2
    | none =>
      let r := PRINTF s (bytes "??? <" ++ x ++ bytes ">" ++ [10])
      pager r.1 r.2

/-- The five ways `server_got_reply` handles a line. -/
inductive Kind where
  | async
  | continuation
  | coded_terminal
  | coded_nonterminal
  | malformed
  deriving DecidableEq

/-- The branch of `server_got_reply` a line takes, read off its `if` chain. -/
def classify (x : List Nat) : Kind :=
  if x.getD 0 0 = 43 then .async
  else if x.getD 0 0 = 32 then .continuation
  else
    match reply_code x with
    | some _ => if x.getD 4 0 = 32 then .coded_terminal else .coded_nonterminal
    | none => .malformed

/-- What the branch of each kind does, as `server_got_reply` writes it. -/
def handle (k : Kind) (s : Client) (x : List Nat) : Outcome Client :=
  match k with
  | .async =>
    pager (PRINTF s (bytes ">>> " ++ x.drop 1 ++ [10])).1
      (PRINTF s (bytes ">>> " ++ x.drop 1 ++ [10])).2
  | .continuation =>
    pager (PRINTF s ((if s.verbose ≠ 0 then bytes "     " else []) ++ x.drop 1 ++ [10])).1
      (PRINTF s ((if s.verbose ≠ 0 then bytes "     " else []) ++ x.drop 1 ++ [10])).2
  | .coded_terminal =>
    let code := (reply_code x).getD 0
    let r := if code ≠ 0 then PRINTF s ((if s.verbose ≠ 0 then x else x.drop 5) ++ [10])
             else (s, 0)
    .ret { r.1 with last_code := code, busy := 0, skip_input := 0 }
  | .coded_nonterminal =>
    let code := (reply_code x).getD 0
    let r := if code ≠ 0 then PRINTF s ((if s.verbose ≠ 0 then x else x.drop 5) ++ [10])
             else (s, 0)
    pager { r.1 with last_code := code } r.2
  | .malformed =>
    pager (PRINTF s (bytes "??? <" ++ x ++ bytes ">" ++ [10])).1
      (PRINTF s (bytes "??? <" ++ x ++ bytes ">" ++ [10])).2

/-- The shape of a coded reply line as the protocol describes it: more than
four characters, four decimal digits, then a space or a hyphen. -/
def four_digit_form (x : List Nat) : Prop :=
  x.length > 4 ∧ isdigit (x.getD 0 0) = true ∧ isdigit (x.getD 1 0) = true ∧
    isdigit (x.getD 2 0) = true ∧ isdigit (x.getD 3 0) = true ∧
    (x.getD 4 0 = 32 ∨ x.getD 4 0 = 45)

/-- The decimal value of the first four characters of a line. -/
def four_digit_value (x : List Nat) : Int :=
  1000 * ((x.getD 0 0 : Int) - 48) + 100 * ((x.getD 1 0 : Int) - 48) +
    10 * ((x.getD 2 0 : Int) - 48) + ((x.getD 3 0 : Int) - 48)

/-- A key that ends the pause of `more`: space, enter, return or `q`. -/
def resume_key (k : Int) : Prop := k = 32 ∨ k = 10 ∨ k = 13 ∨ k = 113

/-! ## `server_read` -/

/-- The string a `char *` denotes when the memory it points to holds `p`
followed by a NUL: the bytes of `p` before its first NUL. -/
def cstr (p : List Nat) : List Nat := p.takeWhile (fun b => b ≠ 0)

/-- The scanning loop of `server_read`, `while (p < server_read_pos) if (*p++ ==
'\n') { p[-1] = 0; server_got_reply(start); start = p; }`, over the bytes of
`[p, server_read_pos)`.  `line` holds the bytes of `[start, p)` and `moved`
tells whether `start != server_read_buf`.  The result is the strings handed to
`server_got_reply`, in order, the bytes of `[start, server_read_pos)` at the end
of the loop, and the final `moved`. -/
def server_read_scan (line : List Nat) (moved : Bool) :
    List Nat → List (List Nat) × List Nat × Bool
  | [] => ([], line, moved)
  | b :: rest =>
    if b = 10 then
      let r := server_read_scan [] true rest
      (cstr line :: r.1, r.2)
    else server_read_scan (line ++ [b]) moved rest

/-- Lines 325 to 345 of `server_read` on the buffer alone: `buf` is the buffer
before the read and `chunk` the bytes the read stored behind it.  The result is
the strings handed to `server_got_reply` and the buffer afterwards: the tail
moved to the front when a line was found, the marker `?<too-long>` (11 bytes)
when no line was found and the buffer is full, and the buffer as it is
otherwise. -/
def server_read_frame (buf chunk : List Nat) : List (List Nat) × List Nat :=
  let r := server_read_scan buf false chunk
  if r.2.2 then (r.1, r.2.1)
  else if buf.length + chunk.length = SERVER_READ_BUF_LEN then (r.1, bytes "?<too-long>")
  else (r.1, r.2.1)

/-- The calls `server_got_reply(start)` of one `server_read`, in order.
`server_got_reply` neither reads nor writes the read buffer and the scanning
loop touches nothing else, so the calls are made here on the lines the loop
finds. -/
def server_got_replies (s : Client) : List (List Nat) → Outcome Client
  | [] => .ret s
  | x :: xs => (server_got_reply s x).bind fun s1 => server_got_replies s1 xs

/-- The `redo:` loop of `server_read` and what follows a successful read.  A
`read` cannot store more than the `server_read_buf + sizeof(server_read_buf) -
server_read_pos` bytes it was asked for; a result that claims so is `undefined`. -/
def server_read_redo (s : Client) : List ReadResult → Outcome Client
  | [] => .hang
  | .eintr :: rs => server_read_redo s rs
  | .eof :: _ => .die
  | .error :: _ => .die
  | .data bs :: rs =>
    if bs.length = 0 then .die
    else if bs.length > SERVER_READ_BUF_LEN - s.server_read_buf.length then .undefined
    else
      let r := server_read_frame s.server_read_buf bs
      (server_got_replies { s with reads := rs } r.1).bind fun s1 =>
        .ret { s1 with server_read_buf := r.2 }

/-- The function `server_read()`. -/
def server_read (s : Client) : Outcome Client := server_read_redo s s.reads

/-- Successive calls of `server_read`, as `select_loop` makes them each time
the socket is readable, with one successful read each. -/
def server_read_calls (s : Client) : List (List Nat) → Outcome Client
  | [] => .ret s
  | c :: cs => (server_read { s with reads := [.data c] }).bind fun s1 => server_read_calls s1 cs

/-- Successive calls of `server_read` on the buffer alone, one successful read
each: all the strings handed to `server_got_reply` and the buffer at the end. -/
def server_read_frames (buf : List Nat) : List (List Nat) → List (List Nat) × List Nat
  | [] => ([], buf)
  | c :: cs =>
    let r := server_read_frame buf c
    let r2 := server_read_frames r.2 cs
    (r.1 ++ r2.1, r2.2)

/-- Every value `server_read_pos - server_read_buf` takes during successive
calls of `server_read`: before each read, after `server_read_pos += c`, and
after the buffer was compacted or reset. -/
def cursor_trace (buf : List Nat) : List (List Nat) → List Nat
  | [] => [buf.length]
  | c :: cs =>
    buf.length :: (buf.length + c.length) :: cursor_trace (server_read_frame buf c).2 cs

/-- Each read of the sequence returns between 1 and `server_read_buf +
sizeof(server_read_buf) - server_read_pos` bytes. -/
def reads_fit (buf : List Nat) : List (List Nat) → Bool
  | [] => true
  | c :: cs =>
    decide (1 ≤ c.length) && decide (c.length ≤ SERVER_READ_BUF_LEN - buf.length) &&
      reads_fit (server_read_frame buf c).2 cs

/-- The newline-terminated segments of a byte stream, in order, without their
newline. -/
def stream_lines (stream : List Nat) : List (List Nat) := (stream.splitOn 10).dropLast

/-- The unterminated tail of a byte stream: what follows its last newline. -/
def stream_tail (stream : List Nat) : List Nat := (stream.splitOn 10).getLastD []

/-! ## `server_send` -/

/-- The function `wait_for_write(fd)`: `select` until the socket is writable. -/
def wait_for_write : List SelectResult → Outcome (List SelectResult)
  | [] => .hang
  | .ready :: rs => .ret rs
  | .notready :: rs => wait_for_write rs
  | .eintr :: rs => wait_for_write rs
  | .error :: _ => .die

/-- The `while (l)` loop of `server_send`: `z` holds the `l` bytes still to be
written, `ws` the results of the coming `write` calls.  A `write` accepts at
most the `l` bytes it was given; a result that claims more is `undefined`. -/
def server_send_loop (s : Client) : List WriteResult → List Nat → Outcome Client
  | ws, [] => .ret { s with writes := ws }
  | [], _ :: _ => .hang
  | .wrote cnt :: ws, b :: z =>
    if cnt > (b :: z).length then .undefined
    else server_send_loop { s with wire := s.wire ++ (b :: z).take cnt } ws ((b :: z).drop cnt)
  | .eagain :: ws, b :: z =>
    match wait_for_write s.selects with
    | .ret sels => server_send_loop { s with selects := sels } ws (b :: z)
    | .exit st => .exit st
    | .die => .die
    | .hang => .hang
    | .undefined => .undefined
  | .eintr :: ws, b :: z => server_send_loop s ws (b :: z)
  | .error :: _, _ :: _ => .die

/-- The function `server_send(cmd)`: the command followed by one newline is written. -/
def server_send (s : Client) (cmd : List Nat) : Outcome Client :=
  server_send_loop s s.writes (cmd ++ [10])

/-! ## Startup -/

/-- The functions `client.c` calls in the other files of the client: the
expansion of an abbreviated command (`NULL` or a string) and the set up of the
terminal front end, which may set `term_lns` and `term_cls`. -/
structure Externals where
  cmd_expand : List Nat → Option (List Nat)
  input_init : Client → Outcome Client

/-- The function `submit_server_command(cmd)`. -/
def submit_server_command (s : Client) (cmd : List Nat) : Outcome Client :=
  server_send { s with busy := 1, num_lines := 2 } cmd

/-- The function `submit_init_command(cmd_raw)`; `cleanup()` restores the terminal and
touches none of the globals. -/
def submit_init_command (ext : Externals) (s : Client) (cmd_raw : List Nat) :
    Outcome Client :=
  match ext.cmd_expand cmd_raw with
  | none => .exit 0
  | some cmd => submit_server_command s cmd

/-- The function `init_commands()`. -/
def init_commands (ext : Externals) (s : Client) : Outcome Client :=
  if s.restricted ≠ 0 then
    (submit_server_command s (bytes "restrict")).bind fun s1 =>
      .ret { s1 with restricted := 0 }
  else
    match s.init_cmd with
    | some cmd =>
      (submit_init_command ext s cmd).bind fun s1 => .ret { s1 with init_cmd := none }
    | none =>
      if s.once ≠ 0 then .exit (if s.last_code < 8000 then 0 else 1)
      else
        (ext.input_init s).bind fun s1 =>
          .ret { s1 with
            term_lns := if s1.term_lns > 0 then s1.term_lns else 25
            term_cls := if s1.term_cls > 0 then s1.term_cls else 80
            init := 0 }

/-- The head of an iteration of `select_loop`: `if (init && !busy)
init_commands();`. -/
def select_loop_head (ext : Externals) (s : Client) : Outcome Client :=
  if s.init ≠ 0 ∧ s.busy = 0 then init_commands ext s else .ret s


/-! ## Commands typed at the terminal and `select_loop` -/

/-- The function `handle_internal_command(cmd)`: `strncmp(cmd, w, 4)` is zero
exactly when the first four characters of `cmd` are those of the word `w`.  The
result is the state and the value returned, 1 when the command was handled
here. -/
def handle_internal_command (s : Client) (cmd : List Nat) : Outcome (Client × Int) :=
  if cmd.take 4 = bytes "exit" ∨ cmd.take 4 = bytes "quit" then .exit 0
  else if cmd.take 4 = bytes "help" then
    .ret ({ s with stdout := s.stdout ++ bytes "Press \x60?\x27 for context sensitive help.\n" }, 1)
  else .ret (s, 0)

/-- The function `submit_command(cmd_raw)`. -/
def submit_command (ext : Externals) (s : Client) (cmd_raw : List Nat) : Outcome Client :=
  match ext.cmd_expand cmd_raw with
  | none => .ret s
  | some cmd =>
    (handle_internal_command s cmd).bind fun r =>
      if r.2 = 0 then submit_server_command r.1 cmd else .ret r.1

/-- What the `select` call of `select_loop` gives: `rv < 0` with `errno` being
`EINTR` or something else, or the descriptors it reports readable. -/
inductive LoopSelect where
  | eintr
  | error
  | ready (stdin : Bool) (server : Bool)
  deriving DecidableEq

/-- Whether descriptor 0 is in the set `select_loop` hands to `select`:
`if (!busy) FD_SET(0, &select_fds);`. -/
def stdin_polled (s : Client) : Bool := decide (s.busy = 0)

/-- One iteration of the `while (1)` loop of `select_loop`.  `input_read` is the
function of the terminal front end that reads a command line and submits it;
`input_notify` is of that front end too and touches none of the globals.
`select` reports descriptor 0 only if it was in the set it was handed. -/
def select_loop_turn (ext : Externals) (input_read : Client → Outcome Client)
    (s : Client) (ev : LoopSelect) : Outcome Client :=
  (select_loop_head ext s).bind fun s1 =>
    match ev with
    | .eintr => .ret s1
    | .error => .die
    | .ready stdin server =>
      if stdin = true ∧ stdin_polled s1 = true then input_read s1
      else if server = true then server_read s1
      else .ret s1

/-- Successive iterations of `select_loop`, one for each result of `select`. -/
def select_loop_turns (ext : Externals) (input_read : Client → Outcome Client)
    (s : Client) : List LoopSelect → Outcome Client
  | [] => .ret s
  | ev :: evs =>
    (select_loop_turn ext input_read s ev).bind fun s1 =>
      select_loop_turns ext input_read s1 evs

/-! ## Notions used to state the properties -/

/-- The text the branch of a line prints when `skip_input` is clear. -/
def reply_text (s : Client) (x : List Nat) : List Nat :=
  match classify x with
  | .async => bytes ">>> " ++ x.drop 1 ++ [10]
  | .continuation => (if s.verbose ≠ 0 then bytes "     " else []) ++ x.drop 1 ++ [10]
  | .coded_terminal =>
    if (reply_code x).getD 0 ≠ 0 then (if s.verbose ≠ 0 then x else x.drop 5) ++ [10] else []
  | .coded_nonterminal =>
    if (reply_code x).getD 0 ≠ 0 then (if s.verbose ≠ 0 then x else x.drop 5) ++ [10] else []
  | .malformed => bytes "??? <" ++ x ++ bytes ">" ++ [10]

/-- The state once the branch of a line has printed its text and, for a coded
line, recorded the code. -/
def printed_state (s : Client) (x : List Nat) : Client :=
  { s with
    stdout := s.stdout ++ reply_text s x
    last_code :=
      if classify x = .coded_terminal ∨ classify x = .coded_nonterminal then
        (reply_code x).getD 0
      else s.last_code }

/-- A state with the globals `server_got_reply` and `more` may write, and the
terminal, blanked: two states agree on everything else when these are equal. -/
def reply_frame (s : Client) : Client :=
  { s with
    busy := 0, last_code := 0, num_lines := 0, skip_input := 0, stdout := [], keys := [] }

/-- A state with what `server_read` may write blanked. -/
def read_frame (s : Client) : Client :=
  { reply_frame s with server_read_buf := [], reads := [] }

/-- A state with what `server_send` may write blanked. -/
def send_frame (s : Client) : Client :=
  { s with wire := [], writes := [], selects := [] }

/-- Where the startup sequence stands in a state `s` reached from the state `s0`
the client started in: nothing sent yet; `restrict` sent and the flag cleared;
or the expanded batch command sent after that, and `init_cmd` cleared. -/
def startup_phase (ext : Externals) (s0 s : Client) : Prop :=
  (s.restricted = s0.restricted ∧ s.init_cmd = s0.init_cmd ∧ s.wire = []) ∨
    (s0.restricted ≠ 0 ∧ s.restricted = 0 ∧ s.init_cmd = s0.init_cmd ∧
      s.wire = bytes "restrict" ++ [10]) ∨
    (s.restricted = 0 ∧ s.init_cmd = none ∧
      ∃ raw cmd, s0.init_cmd = some raw ∧ ext.cmd_expand raw = some cmd ∧
        s.wire = (if s0.restricted ≠ 0 then bytes "restrict" ++ [10] else []) ++ cmd ++ [10])

/-- The pager is armed: `interactive && busy && !skip_input && !init`, with a
positive number of columns. -/
def paging (s : Client) : Prop :=
  s.interactive ≠ 0 ∧ s.busy ≠ 0 ∧ s.skip_input = 0 ∧ s.init = 0 ∧ s.term_cls > 0

/-- The line is not the terminal line of a reply and what it prints fills one
line of the screen: between 1 and `term_cls` characters. -/
def one_screen_line (s : Client) (x : List Nat) : Prop :=
  classify x ≠ .coded_terminal ∧ 0 < (reply_text s x).length ∧
    ((reply_text s x).length : Int) ≤ s.term_cls

/-- The state `s'` differs from `s` only in `last_code`, the pager counter, the
terminal output and the keys read. -/
def same_session (s s' : Client) : Prop :=
  reply_frame s' = reply_frame s ∧ s'.busy = s.busy ∧ s'.skip_input = s.skip_input

/-- An interactive session on a terminal of 5 rows and 80 columns, right after a
command was submitted: `busy` set, the pager counter at its baseline of 2. -/
def pagination_start : Client :=
  { Client.initial with
    interactive := 1, init := 0, term_lns := 5, term_cls := 80, num_lines := 2 }

/-- The state with the read buffer and the results of the coming reads replaced:
the two things of a state that `server_read` itself writes. -/
def with_read_state (b : List Nat) (r : List ReadResult) (t : Client) : Client :=
  { t with server_read_buf := b, reads := r }

/-! ## Lemmas on `sscanf_d` and `reply_code` -/

theorem store_int_small (v : Int) (h0 : 0 ≤ v) (h1 : v < 10000) : store_int v = v := by
  unfold store_int
  norm_num
  split_ifs <;> omega

theorem isdigit_iff (c : Nat) : isdigit c = true ↔ 48 ≤ c ∧ c ≤ 57 := by
  simp [isdigit]

theorem sscanf_d_four_digits (a b c d e : Nat) (rest : List Nat)
    (ha : isdigit a = true) (hb : isdigit b = true) (hc : isdigit c = true)
    (hd : isdigit d = true) (he : e = 32 ∨ e = 45) :
    sscanf_d (a :: b :: c :: d :: e :: rest) =
      some (1000 * ((a : Int) - 48) + 100 * ((b : Int) - 48) + 10 * ((c : Int) - 48)
        + ((d : Int) - 48)) := by
  have hs : isspace a = false := by
    rw [isdigit_iff] at ha
    simp [isspace]; omega
  have hne : isdigit e = false := by
    rcases he with rfl | rfl <;> decide
  have ha2 := (isdigit_iff a).1 ha
  have hb2 := (isdigit_iff b).1 hb
  have hc2 := (isdigit_iff c).1 hc
  have hd2 := (isdigit_iff d).1 hd
  have h45 : a ≠ 45 := by omega
  have h43 : a ≠ 43 := by omega
  simp only [sscanf_d, List.dropWhile, hs, h45, h43, ha, if_true, if_false, scan_digits, hb,
    hc, hd, hne]
  rw [store_int_small]
  · congr 1
    push_cast
    omega
  · push_cast; omega
  · push_cast; omega

theorem reply_code_eq_some (x : List Nat) (c : Int) :
    reply_code x = some c ↔
      x.length > 4 ∧ sscanf_d x = some c ∧ 0 ≤ c ∧ c < 10000 ∧
        (x.getD 4 0 = 32 ∨ x.getD 4 0 = 45) := by
  unfold reply_code
  by_cases hl : x.length > 4
  · rw [if_pos hl]
    cases hs : sscanf_d x with
    | none =>
      constructor
      · intro h; cases h
      · rintro ⟨-, h, -⟩; cases h
    | some v =>
      constructor
      · intro h
        simp only at h
        split_ifs at h with hv
        cases h
        exact ⟨hl, rfl, hv.1, hv.2.1, hv.2.2⟩
      · rintro ⟨-, h, h0, h1, h4⟩
        cases h
        simp only
        rw [if_pos ⟨h0, h1, h4⟩]
  · rw [if_neg hl]
    constructor
    · intro h; cases h
    · rintro ⟨h, -⟩; exact absurd h hl

theorem reply_code_four_digit (x : List Nat) (h : four_digit_form x) :
    reply_code x = some (four_digit_value x) := by
  obtain ⟨hl, h0, h1, h2, h3, h4⟩ := h
  match x, hl with
  | a :: b :: c :: d :: e :: rest, _ =>
    simp only [List.getD_cons_zero, List.getD_cons_succ] at h0 h1 h2 h3 h4
    rw [reply_code_eq_some]
    have hs := sscanf_d_four_digits a b c d e rest h0 h1 h2 h3 h4
    rw [isdigit_iff] at h0 h1 h2 h3
    refine ⟨by simp, ?_, ?_, ?_, ?_⟩
    · rw [hs]; simp [four_digit_value]
    · simp only [four_digit_value, List.getD_cons_zero, List.getD_cons_succ]; omega
    · simp only [four_digit_value, List.getD_cons_zero, List.getD_cons_succ]; omega
    · simpa using h4

/-! ## Lemmas on `more` and the pager -/

theorem more_redo_fields (s s' : Client) (ks : List Int) (h : more_redo s ks = .ret s') :
    s'.busy = s.busy ∧ s'.last_code = s.last_code := by
  induction ks with
  | nil => simp [more_redo] at h
  | cons k ks ih =>
    unfold more_redo at h
    split_ifs at h
    · cases h; exact ⟨rfl, rfl⟩
    · cases h; exact ⟨rfl, rfl⟩
    · cases h; exact ⟨rfl, rfl⟩
    · exact ih h

theorem more_redo_returns (s : Client) (ks : List Int) (h : ∃ k ∈ ks, resume_key k) :
    ∃ s', more_redo s ks = .ret s' := by
  induction ks with
  | nil => simp at h
  | cons k ks ih =>
    unfold more_redo
    split_ifs with h1 h2 h3
    · exact ⟨_, rfl⟩
    · exact ⟨_, rfl⟩
    · exact ⟨_, rfl⟩
    · apply ih
      obtain ⟨k', hk', hr⟩ := h
      rcases List.mem_cons.1 hk' with rfl | hm
      · exfalso
        rcases hr with r | r | r | r
        · exact h1 r
        · exact h2 (Or.inl r)
        · exact h2 (Or.inr r)
        · exact h3 r
      · exact ⟨k', hm, hr⟩

theorem more_fields (s s' : Client) (h : more s = .ret s') :
    s'.busy = s.busy ∧ s'.last_code = s.last_code := by
  unfold more at h
  simp only at h
  cases hr : more_redo { s with stdout := s.stdout ++ bytes "--More--\r" } s.keys with
  | ret s2 =>
    rw [hr] at h
    simp only [Outcome.bind] at h
    cases h
    have := more_redo_fields _ _ _ hr
    exact this
  | exit st => rw [hr] at h; simp [Outcome.bind] at h
  | die => rw [hr] at h; simp [Outcome.bind] at h
  | hang => rw [hr] at h; simp [Outcome.bind] at h
  | undefined => rw [hr] at h; simp [Outcome.bind] at h

theorem more_returns (s : Client) (h : ∃ k ∈ s.keys, resume_key k) :
    ∃ s', more s = .ret s' := by
  unfold more
  simp only
  obtain ⟨s2, h2⟩ := more_redo_returns { s with stdout := s.stdout ++ bytes "--More--\r" }
    s.keys h
  rw [h2]
  exact ⟨_, rfl⟩

theorem pager_fields (s s' : Client) (len : Int) (h : pager s len = .ret s') :
    s'.busy = s.busy ∧ s'.last_code = s.last_code := by
  simp only [pager] at h
  split_ifs at h
  · have hm := more_fields _ _ h
    exact hm
  · cases h; exact ⟨rfl, rfl⟩
  · cases h; exact ⟨rfl, rfl⟩

theorem pager_returns (s : Client) (len : Int) (hc : s.term_cls ≠ 0)
    (hk : ∃ k ∈ s.keys, resume_key k) : ∃ s', pager s len = .ret s' := by
  simp only [pager]
  split_ifs
  · exact more_returns _ hk
  · exact ⟨_, rfl⟩
  · exact ⟨_, rfl⟩

theorem pager_zero (s : Client) : pager s 0 = .ret s := by
  simp [pager]

theorem PRINTF_fields (s : Client) (t : List Nat) :
    (PRINTF s t).1.busy = s.busy ∧ (PRINTF s t).1.last_code = s.last_code ∧
      (PRINTF s t).1.term_cls = s.term_cls ∧ (PRINTF s t).1.keys = s.keys := by
  unfold PRINTF
  split_ifs <;> exact ⟨rfl, rfl, rfl, rfl⟩

theorem PRINTF_skip (s : Client) (t : List Nat) (h : s.skip_input ≠ 0) : PRINTF s t = (s, 0) := by
  simp [PRINTF, h]

/-! ## `server_got_reply`, branch by branch -/

theorem server_got_reply_eq_handle (s : Client) (x : List Nat) :
    server_got_reply s x = handle (classify x) s x := by
  unfold server_got_reply classify
  by_cases h1 : x.getD 0 0 = 43
  · rw [if_pos h1, if_pos h1]; rfl
  · rw [if_neg h1, if_neg h1]
    by_cases h2 : x.getD 0 0 = 32
    · rw [if_pos h2, if_pos h2]; rfl
    · rw [if_neg h2, if_neg h2]
      cases hc : reply_code x with
      | none => rfl
      | some c =>
        by_cases h4 : x.getD 4 0 = 32
        · simp only [if_pos h4, handle, hc, Option.getD_some]
        · simp only [if_neg h4, handle, hc, Option.getD_some]

theorem classify_async_iff (x : List Nat) : classify x = .async ↔ x.getD 0 0 = 43 := by
  unfold classify
  by_cases h1 : x.getD 0 0 = 43
  · rw [if_pos h1]; exact ⟨fun _ => h1, fun _ => rfl⟩
  · rw [if_neg h1]
    by_cases h2 : x.getD 0 0 = 32
    · rw [if_pos h2]; simp only [h1, iff_false]; intro h; cases h
    · rw [if_neg h2]
      cases reply_code x with
      | none => simp only [h1, iff_false]; intro h; cases h
      | some c => simp only [h1, iff_false]; split_ifs <;> intro h <;> cases h

theorem classify_continuation_iff (x : List Nat) :
    classify x = .continuation ↔ x.getD 0 0 ≠ 43 ∧ x.getD 0 0 = 32 := by
  unfold classify
  by_cases h1 : x.getD 0 0 = 43
  · rw [if_pos h1]
    constructor
    · intro h; cases h
    · rintro ⟨h, -⟩; exact absurd h1 h
  · rw [if_neg h1]
    by_cases h2 : x.getD 0 0 = 32
    · rw [if_pos h2]; exact ⟨fun _ => ⟨h1, h2⟩, fun _ => rfl⟩
    · rw [if_neg h2]
      constructor
      · intro h
        cases hc : reply_code x with
        | none => rw [hc] at h; cases h
        | some c => rw [hc] at h; simp only at h; split_ifs at h
      · rintro ⟨-, h⟩; exact absurd h h2

theorem classify_coded (x : List Nat) (c : Int) (h1 : x.getD 0 0 ≠ 43) (h2 : x.getD 0 0 ≠ 32)
    (hc : reply_code x = some c) :
    (x.getD 4 0 = 32 ∧ classify x = .coded_terminal) ∨
      (x.getD 4 0 = 45 ∧ classify x = .coded_nonterminal) := by
  have h4 := ((reply_code_eq_some x c).1 hc).2.2.2.2
  unfold classify
  rw [if_neg h1, if_neg h2, hc]
  rcases h4 with h | h
  · left; exact ⟨h, by simp only [if_pos h]⟩
  · right
    have h32 : x.getD 4 0 ≠ 32 := by rw [h]; decide
    exact ⟨h, by simp only [if_neg h32]⟩

theorem classify_uncoded (x : List Nat) (h1 : x.getD 0 0 ≠ 43) (h2 : x.getD 0 0 ≠ 32)
    (hc : reply_code x = none) : classify x = .malformed := by
  unfold classify
  rw [if_neg h1, if_neg h2, hc]

theorem classify_terminal_iff (x : List Nat) :
    classify x = .coded_terminal ↔
      x.getD 0 0 ≠ 43 ∧ x.getD 0 0 ≠ 32 ∧ (∃ c, reply_code x = some c) ∧ x.getD 4 0 = 32 := by
  by_cases h1 : x.getD 0 0 = 43
  · have := (classify_async_iff x).2 h1
    constructor
    · intro h; rw [this] at h; cases h
    · rintro ⟨h, -⟩; exact absurd h1 h
  · by_cases h2 : x.getD 0 0 = 32
    · have := (classify_continuation_iff x).2 ⟨h1, h2⟩
      constructor
      · intro h; rw [this] at h; cases h
      · rintro ⟨-, h, -⟩; exact absurd h2 h
    · cases hc : reply_code x with
      | none =>
        have := classify_uncoded x h1 h2 hc
        constructor
        · intro h; rw [this] at h; cases h
        · rintro ⟨-, -, ⟨c, h⟩, -⟩; cases h
      | some c =>
        rcases classify_coded x c h1 h2 hc with ⟨h4, hk⟩ | ⟨h4, hk⟩
        · exact ⟨fun _ => ⟨h1, h2, ⟨c, rfl⟩, h4⟩, fun _ => hk⟩
        · constructor
          · intro h; rw [hk] at h; cases h
          · rintro ⟨-, -, -, h⟩; rw [h4] at h; exact absurd h (by decide)

theorem classify_nonterminal_iff (x : List Nat) :
    classify x = .coded_nonterminal ↔
      x.getD 0 0 ≠ 43 ∧ x.getD 0 0 ≠ 32 ∧ (∃ c, reply_code x = some c) ∧ x.getD 4 0 = 45 := by
  by_cases h1 : x.getD 0 0 = 43
  · have := (classify_async_iff x).2 h1
    constructor
    · intro h; rw [this] at h; cases h
    · rintro ⟨h, -⟩; exact absurd h1 h
  · by_cases h2 : x.getD 0 0 = 32
    · have := (classify_continuation_iff x).2 ⟨h1, h2⟩
      constructor
      · intro h; rw [this] at h; cases h
      · rintro ⟨-, h, -⟩; exact absurd h2 h
    · cases hc : reply_code x with
      | none =>
        have := classify_uncoded x h1 h2 hc
        constructor
        · intro h; rw [this] at h; cases h
        · rintro ⟨-, -, ⟨c, h⟩, -⟩; cases h
      | some c =>
        rcases classify_coded x c h1 h2 hc with ⟨h4, hk⟩ | ⟨h4, hk⟩
        · constructor
          · intro h; rw [hk] at h; cases h
          · rintro ⟨-, -, -, h⟩; rw [h4] at h; exact absurd h (by decide)
        · exact ⟨fun _ => ⟨h1, h2, ⟨c, rfl⟩, h4⟩, fun _ => hk⟩

theorem classify_malformed_iff (x : List Nat) :
    classify x = .malformed ↔ x.getD 0 0 ≠ 43 ∧ x.getD 0 0 ≠ 32 ∧ reply_code x = none := by
  by_cases h1 : x.getD 0 0 = 43
  · have := (classify_async_iff x).2 h1
    constructor
    · intro h; rw [this] at h; cases h
    · rintro ⟨h, -⟩; exact absurd h1 h
  · by_cases h2 : x.getD 0 0 = 32
    · have := (classify_continuation_iff x).2 ⟨h1, h2⟩
      constructor
      · intro h; rw [this] at h; cases h
      · rintro ⟨-, h, -⟩; exact absurd h2 h
    · cases hc : reply_code x with
      | none => exact ⟨fun _ => ⟨h1, h2, rfl⟩, fun _ => classify_uncoded x h1 h2 hc⟩
      | some c =>
        rcases classify_coded x c h1 h2 hc with ⟨h4, hk⟩ | ⟨h4, hk⟩
        · constructor
          · intro h; rw [hk] at h; cases h
          · rintro ⟨-, -, h⟩; cases h
        · constructor
          · intro h; rw [hk] at h; cases h
          · rintro ⟨-, -, h⟩; cases h

theorem coded_print_fields (s : Client) (c : Int) (t : List Nat) :
    (if c ≠ 0 then PRINTF s t else (s, 0)).1.busy = s.busy ∧
      (if c ≠ 0 then PRINTF s t else (s, 0)).1.term_cls = s.term_cls ∧
      (if c ≠ 0 then PRINTF s t else (s, 0)).1.keys = s.keys := by
  have hp := PRINTF_fields s t
  split_ifs
  · exact ⟨hp.1, hp.2.2.1, hp.2.2.2⟩
  · exact ⟨rfl, rfl, rfl⟩

theorem coded_print_quiet (s : Client) (c : Int) (t : List Nat) (h : c = 0 ∨ s.skip_input ≠ 0) :
    (if c ≠ 0 then PRINTF s t else (s, 0)) = (s, 0) := by
  split_ifs with hc
  · rcases h with h | h
    · exact absurd h hc
    · exact PRINTF_skip s t h
  · rfl

theorem handle_fields (k : Kind) (s s' : Client) (x : List Nat) (h : handle k s x = .ret s') :
    (k ≠ .coded_terminal → s'.busy = s.busy) ∧
      (k = .coded_terminal → s'.busy = 0 ∧ s'.skip_input = 0) ∧
      (k = .coded_terminal ∨ k = .coded_nonterminal → s'.last_code = (reply_code x).getD 0) ∧
      (k = .async ∨ k = .continuation ∨ k = .malformed → s'.last_code = s.last_code) := by
  cases k with
  | async =>
    have hp := pager_fields _ _ _ h
    have hq := PRINTF_fields s (bytes ">>> " ++ x.drop 1 ++ [10])
    refine ⟨fun _ => hp.1.trans hq.1, fun hk => (by cases hk), fun hk => ?_,
      fun _ => hp.2.trans hq.2.1⟩
    rcases hk with hk | hk <;> cases hk
  | continuation =>
    have hp := pager_fields _ _ _ h
    have hq := PRINTF_fields s ((if s.verbose ≠ 0 then bytes "     " else []) ++ x.drop 1 ++ [10])
    refine ⟨fun _ => hp.1.trans hq.1, fun hk => (by cases hk), fun hk => ?_,
      fun _ => hp.2.trans hq.2.1⟩
    rcases hk with hk | hk <;> cases hk
  | coded_terminal =>
    simp only [handle] at h
    cases h
    refine ⟨fun hk => absurd rfl hk, fun _ => ⟨rfl, rfl⟩, fun _ => rfl, fun hk => ?_⟩
    rcases hk with hk | hk | hk <;> cases hk
  | coded_nonterminal =>
    simp only [handle] at h
    have hp := pager_fields _ _ _ h
    have hq := coded_print_fields s ((reply_code x).getD 0)
      ((if s.verbose ≠ 0 then x else x.drop 5) ++ [10])
    refine ⟨fun _ => hp.1.trans hq.1, fun hk => (by cases hk), fun _ => hp.2, fun hk => ?_⟩
    rcases hk with hk | hk | hk <;> cases hk
  | malformed =>
    have hp := pager_fields _ _ _ h
    have hq := PRINTF_fields s (bytes "??? <" ++ x ++ bytes ">" ++ [10])
    refine ⟨fun _ => hp.1.trans hq.1, fun hk => (by cases hk), fun hk => ?_,
      fun _ => hp.2.trans hq.2.1⟩
    rcases hk with hk | hk <;> cases hk

theorem handle_returns (k : Kind) (s : Client) (x : List Nat) (hc : s.term_cls ≠ 0)
    (hk : ∃ k ∈ s.keys, resume_key k) : ∃ s', handle k s x = .ret s' := by
  cases k with
  | async =>
    have hq := PRINTF_fields s (bytes ">>> " ++ x.drop 1 ++ [10])
    exact pager_returns _ _ (by rw [hq.2.2.1]; exact hc) (by rw [hq.2.2.2]; exact hk)
  | continuation =>
    have hq := PRINTF_fields s ((if s.verbose ≠ 0 then bytes "     " else []) ++ x.drop 1 ++ [10])
    exact pager_returns _ _ (by rw [hq.2.2.1]; exact hc) (by rw [hq.2.2.2]; exact hk)
  | coded_terminal => exact ⟨_, rfl⟩
  | coded_nonterminal =>
    have hq := coded_print_fields s ((reply_code x).getD 0)
      ((if s.verbose ≠ 0 then x else x.drop 5) ++ [10])
    simp only [handle]
    apply pager_returns
    · show (if (reply_code x).getD 0 ≠ 0 then
        PRINTF s ((if s.verbose ≠ 0 then x else x.drop 5) ++ [10]) else (s, 0)).1.term_cls ≠ 0
      rw [hq.2.1]; exact hc
    · show ∃ k ∈ (if (reply_code x).getD 0 ≠ 0 then
        PRINTF s ((if s.verbose ≠ 0 then x else x.drop 5) ++ [10]) else (s, 0)).1.keys,
        resume_key k
      rw [hq.2.2]; exact hk
  | malformed =>
    have hq := PRINTF_fields s (bytes "??? <" ++ x ++ bytes ">" ++ [10])
    exact pager_returns _ _ (by rw [hq.2.2.1]; exact hc) (by rw [hq.2.2.2]; exact hk)

/-! ## The reply classifier -/

/-- C1 as the specification states it fails.  The line `123 -foo` starts with
neither `+` nor a space and its fourth character is a space, not a digit; `%d`
reads `123` and stops, the fifth character is a hyphen, so `server_got_reply`
takes the coded branch: it prints the payload `foo` and records code 123. -/
theorem coded_reply_not_only_four_digits :
    classify (bytes "123 -foo") = .coded_nonterminal ∧
      reply_code (bytes "123 -foo") = some 123 ∧
      server_got_reply Client.initial (bytes "123 -foo") =
        .ret { Client.initial with last_code := 123, stdout := bytes "foo\n" } ∧
      ¬ (∀ x : List Nat, x.getD 0 0 ≠ 43 → x.getD 0 0 ≠ 32 →
          ((classify x = .coded_terminal ∨ classify x = .coded_nonterminal) ↔
            four_digit_form x)) := by
  refine ⟨by decide, by decide, by decide, ?_⟩
  intro h
  have h1 := (h (bytes "123 -foo") (by decide) (by decide)).1 (Or.inr (by decide))
  obtain ⟨-, -, -, -, h3, -⟩ := h1
  revert h3
  decide

/-- C1, amended.  For a line `x` that starts with neither `+` nor a space:
`server_got_reply` takes the coded branch exactly when `x` is longer than 4
characters, the `%d` conversion of `x` succeeds with a value in `[0, 9999]` and
the fifth character is a space or a hyphen, and the code it then records is that
value; every line of four decimal digits followed by a space or a hyphen is such
a line, with the decimal value of the four digits as its code; and every other
line is handled by the malformed branch, which prints it as `??? <x>`. -/
theorem coded_reply_iff (x : List Nat) (h1 : x.getD 0 0 ≠ 43) (h2 : x.getD 0 0 ≠ 32) :
    ((classify x = .coded_terminal ∨ classify x = .coded_nonterminal) ↔
        x.length > 4 ∧ (∃ c, sscanf_d x = some c ∧ 0 ≤ c ∧ c < 10000) ∧
          (x.getD 4 0 = 32 ∨ x.getD 4 0 = 45)) ∧
      (∀ c, classify x = .coded_terminal ∨ classify x = .coded_nonterminal →
        sscanf_d x = some c →
          ∀ s s', server_got_reply s x = .ret s' → s'.last_code = c) ∧
      (four_digit_form x →
        (classify x = .coded_terminal ∨ classify x = .coded_nonterminal) ∧
          sscanf_d x = some (four_digit_value x)) ∧
      (¬ (classify x = .coded_terminal ∨ classify x = .coded_nonterminal) →
        classify x = .malformed ∧
          ∀ s, server_got_reply s x =
            pager (PRINTF s (bytes "??? <" ++ x ++ bytes ">" ++ [10])).1
              (PRINTF s (bytes "??? <" ++ x ++ bytes ">" ++ [10])).2) := by
  have hcoded : (classify x = .coded_terminal ∨ classify x = .coded_nonterminal) ↔
      ∃ c, reply_code x = some c := by
    rw [classify_terminal_iff, classify_nonterminal_iff]
    constructor
    · rintro (⟨-, -, h, -⟩ | ⟨-, -, h, -⟩) <;> exact h
    · rintro ⟨c, hc⟩
      rcases ((reply_code_eq_some x c).1 hc).2.2.2.2 with h4 | h4
      · exact Or.inl ⟨h1, h2, ⟨c, hc⟩, h4⟩
      · exact Or.inr ⟨h1, h2, ⟨c, hc⟩, h4⟩
  refine ⟨?_, ?_, ?_, ?_⟩
  · rw [hcoded]
    constructor
    · rintro ⟨c, hc⟩
      obtain ⟨hl, hs, h0, h9, h4⟩ := (reply_code_eq_some x c).1 hc
      exact ⟨hl, ⟨c, hs, h0, h9⟩, h4⟩
    · rintro ⟨hl, ⟨c, hs, h0, h9⟩, h4⟩
      exact ⟨c, (reply_code_eq_some x c).2 ⟨hl, hs, h0, h9, h4⟩⟩
  · intro c hk hs s s' hr
    obtain ⟨c', hc'⟩ := hcoded.1 hk
    have hsc := ((reply_code_eq_some x c').1 hc').2.1
    rw [hs] at hsc
    cases hsc
    rw [server_got_reply_eq_handle] at hr
    have := (handle_fields _ _ _ _ hr).2.2.1 hk
    rw [this, hc']
    rfl
  · intro hf
    have hc := reply_code_four_digit x hf
    exact ⟨hcoded.2 ⟨_, hc⟩, ((reply_code_eq_some x _).1 hc).2.1⟩
  · intro hn
    have hnone : reply_code x = none := by
      cases hc : reply_code x with
      | none => rfl
      | some c => exact absurd (hcoded.2 ⟨c, hc⟩) hn
    have hm := classify_uncoded x h1 h2 hnone
    refine ⟨hm, fun s => ?_⟩
    rw [server_got_reply_eq_handle, hm]
    rfl

/-- The amended C1 at the line `0013 second`: a coded line with code 13. -/
theorem coded_reply_iff_witness :
    (classify (bytes "0013 second") = .coded_terminal ∨
        classify (bytes "0013 second") = .coded_nonterminal) ∧
      sscanf_d (bytes "0013 second") = some 13 := by
  have h := coded_reply_iff (bytes "0013 second") (by decide) (by decide)
  have h3 := h.2.2.1 (by unfold four_digit_form; decide)
  exact ⟨h3.1, by rw [h3.2]; decide⟩

/-- C2.  Every line, the empty one included, takes exactly one of the five
branches of `server_got_reply`: `classify` is a function of the line, what
`server_got_reply` does is what the branch of that kind does, and the five
kinds are told apart by conditions on the line that exclude one another. -/
theorem classify_total (x : List Nat) :
    (∃! k : Kind, classify x = k) ∧
      (∀ s, server_got_reply s x = handle (classify x) s x) ∧
      (classify x = .async ↔ x.getD 0 0 = 43) ∧
      (classify x = .continuation ↔ x.getD 0 0 ≠ 43 ∧ x.getD 0 0 = 32) ∧
      (classify x = .coded_terminal ↔
        x.getD 0 0 ≠ 43 ∧ x.getD 0 0 ≠ 32 ∧ (∃ c, reply_code x = some c) ∧ x.getD 4 0 = 32) ∧
      (classify x = .coded_nonterminal ↔
        x.getD 0 0 ≠ 43 ∧ x.getD 0 0 ≠ 32 ∧ (∃ c, reply_code x = some c) ∧ x.getD 4 0 = 45) ∧
      (classify x = .malformed ↔
        x.getD 0 0 ≠ 43 ∧ x.getD 0 0 ≠ 32 ∧ reply_code x = none) ∧
      classify [] = .malformed :=
  ⟨⟨classify x, rfl, fun _ h => h.symm⟩, fun s => server_got_reply_eq_handle s x,
    classify_async_iff x, classify_continuation_iff x, classify_terminal_iff x,
    classify_nonterminal_iff x, classify_malformed_iff x, by decide⟩

/-- C3.  A line that `server_got_reply` takes as a terminal coded reply, with
code `c`, is processed to the end from every state, and afterwards `last_code`
is `c`, `busy` is 0 and `skip_input` is 0; for a line of four digits and a space
`c` is the decimal value of the digits. -/
theorem terminal_reply_effect (s : Client) (x : List Nat)
    (hk : classify x = .coded_terminal) :
    ∃ c s', reply_code x = some c ∧ server_got_reply s x = .ret s' ∧
      s'.last_code = c ∧ s'.busy = 0 ∧ s'.skip_input = 0 ∧
      (four_digit_form x → c = four_digit_value x) := by
  obtain ⟨-, -, ⟨c, hc⟩, -⟩ := (classify_terminal_iff x).1 hk
  obtain ⟨s', hs'⟩ : ∃ s', server_got_reply s x = .ret s' := by
    rw [server_got_reply_eq_handle, hk]
    exact ⟨_, rfl⟩
  have hf := hs'
  rw [server_got_reply_eq_handle] at hf
  obtain ⟨-, hb, hl, -⟩ := handle_fields _ _ _ _ hf
  refine ⟨c, s', hc, hs', ?_, (hb hk).1, (hb hk).2, ?_⟩
  · rw [hl (Or.inl hk), hc]; rfl
  · intro h4
    have := reply_code_four_digit x h4
    rw [hc] at this
    exact Option.some.inj this

/-- C3 at the line `0013 second`, from a busy state in which the rest of the
reply was being skipped. -/
theorem terminal_reply_effect_witness :
    ∃ c s', reply_code (bytes "0013 second") = some c ∧
      server_got_reply { Client.initial with skip_input := 1 } (bytes "0013 second") = .ret s' ∧
      s'.last_code = c ∧ s'.busy = 0 ∧ s'.skip_input = 0 ∧
      (four_digit_form (bytes "0013 second") → c = four_digit_value (bytes "0013 second")) :=
  terminal_reply_effect { Client.initial with skip_input := 1 } (bytes "0013 second")
    (by decide)

/-- C4.  A line that is not a terminal coded reply leaves `busy` as it was,
whatever the keys the pager reads; with a non-zero `term_cls` and a key that
ends the pause among the coming keys the line is processed to the end.  From
every busy state, `0013-first` leaves `busy` set, and `0013 second` after it
clears `busy` and leaves `last_code` at 13. -/
theorem busy_frame (s : Client) (x : List Nat) (hk : classify x ≠ .coded_terminal) :
    (∀ s', server_got_reply s x = .ret s' → s'.busy = s.busy) ∧
      (s.term_cls ≠ 0 → (∃ k ∈ s.keys, resume_key k) →
        ∃ s', server_got_reply s x = .ret s') ∧
      (∀ t t1, t.busy ≠ 0 → server_got_reply t (bytes "0013-first") = .ret t1 →
        t1.busy ≠ 0 ∧ t1.last_code = 13 ∧
          ∃ t2, server_got_reply t1 (bytes "0013 second") = .ret t2 ∧
            t2.busy = 0 ∧ t2.last_code = 13) := by
  refine ⟨?_, ?_, ?_⟩
  · intro s' h
    rw [server_got_reply_eq_handle] at h
    exact (handle_fields _ _ _ _ h).1 hk
  · intro hc hkey
    rw [server_got_reply_eq_handle]
    exact handle_returns _ _ _ hc hkey
  · intro t t1 hb h1
    rw [server_got_reply_eq_handle] at h1
    have hk1 : classify (bytes "0013-first") = .coded_nonterminal := by decide
    rw [hk1] at h1
    have hf := handle_fields _ _ _ _ h1
    have hb1 : t1.busy = t.busy := hf.1 (by decide)
    have hl1 : t1.last_code = 13 := by
      rw [hf.2.2.1 (Or.inr rfl)]; decide
    refine ⟨by rw [hb1]; exact hb, hl1, ?_⟩
    have hk2 : classify (bytes "0013 second") = .coded_terminal := by decide
    obtain ⟨t2, h2⟩ : ∃ t2, server_got_reply t1 (bytes "0013 second") = .ret t2 := by
      rw [server_got_reply_eq_handle, hk2]; exact ⟨_, rfl⟩
    refine ⟨t2, h2, ?_⟩
    rw [server_got_reply_eq_handle, hk2] at h2
    have hf2 := handle_fields _ _ _ _ h2
    refine ⟨(hf2.2.1 rfl).1, ?_⟩
    rw [hf2.2.2.1 (Or.inl rfl)]; decide

/-- C4 at `0013-first`, in an interactive busy session whose screen is full: the
pager pauses, skips the key `a`, resumes on the space, and `busy` is still 1. -/
theorem busy_frame_witness :
    ∃ s', server_got_reply
        { Client.initial with
          interactive := 1, init := 0, term_cls := 80, term_lns := 3, num_lines := 2,
          keys := [97, 32] } (bytes "0013-first") = .ret s' ∧ s'.busy = 1 := by
  have h := busy_frame
    { Client.initial with
      interactive := 1, init := 0, term_cls := 80, term_lns := 3, num_lines := 2,
      keys := [97, 32] } (bytes "0013-first") (by decide)
  obtain ⟨s', hs'⟩ := h.2.1 (by decide) ⟨32, by decide, Or.inl rfl⟩
  exact ⟨s', hs', h.1 s' hs'⟩

/-- C5.  Whenever `server_got_reply` has processed a line, `last_code` is the
code of the line if the line is a coded reply and is what it was if the line is
an async notification, a continuation or malformed.  A coded line with code 0,
or one processed while `skip_input` is set, prints nothing and its code is
recorded all the same. -/
theorem last_code_recorded (s : Client) (x : List Nat) :
    (∀ s', server_got_reply s x = .ret s' →
        (∀ c, classify x = .coded_terminal ∨ classify x = .coded_nonterminal →
          reply_code x = some c → s'.last_code = c) ∧
        (classify x = .async ∨ classify x = .continuation ∨ classify x = .malformed →
          s'.last_code = s.last_code)) ∧
      (∀ c, classify x = .coded_terminal ∨ classify x = .coded_nonterminal →
        reply_code x = some c → c = 0 ∨ s.skip_input ≠ 0 →
          ∃ s', server_got_reply s x = .ret s' ∧ s'.last_code = c ∧ s'.stdout = s.stdout) ∧
      (s.term_cls ≠ 0 → (∃ k ∈ s.keys, resume_key k) →
        ∃ s', server_got_reply s x = .ret s') := by
  refine ⟨?_, ?_, ?_⟩
  · intro s' h
    rw [server_got_reply_eq_handle] at h
    have hf := handle_fields _ _ _ _ h
    refine ⟨fun c hk hc => ?_, hf.2.2.2⟩
    rw [hf.2.2.1 hk, hc]; rfl
  · intro c hk hc hq
    rw [server_got_reply_eq_handle]
    have hquiet := coded_print_quiet s c ((if s.verbose ≠ 0 then x else x.drop 5) ++ [10]) hq
    rcases hk with hk | hk
    · rw [hk]
      simp only [handle, hc, Option.getD_some, hquiet]
      exact ⟨_, rfl, rfl, rfl⟩
    · rw [hk]
      simp only [handle, hc, Option.getD_some, hquiet, pager_zero]
      exact ⟨_, rfl, rfl, rfl⟩
  · intro hc hkey
    rw [server_got_reply_eq_handle]
    exact handle_returns _ _ _ hc hkey

/-- C6.  In batch mode, once the batch command has been submitted (`init` still
set, `once` set, `restricted` and `init_cmd` cleared), a terminal coded line
with code `c` is processed to the end and the head of the next turn of
`select_loop` ends the process with status 0 if `c < 8000` and 1 otherwise.
Every `c` in `[0, 9999]` is the code of such a line. -/
theorem batch_exit_status (ext : Externals) (s : Client) (x : List Nat) (c : Int)
    (hinit : s.init ≠ 0) (honce : s.once ≠ 0) (hres : s.restricted = 0)
    (hcmd : s.init_cmd = none) (hk : classify x = .coded_terminal)
    (hc : reply_code x = some c) :
    (∃ s', server_got_reply s x = .ret s' ∧ s'.last_code = c ∧
        select_loop_head ext s' = .exit (if c < 8000 then 0 else 1)) ∧
      (∀ n : Int, 0 ≤ n → n < 10000 →
        ∃ y, four_digit_form y ∧ classify y = .coded_terminal ∧ reply_code y = some n) := by
  constructor
  · have hx : server_got_reply s x = handle .coded_terminal s x := by
      rw [server_got_reply_eq_handle, hk]
    simp only [handle, hc, Option.getD_some] at hx
    refine ⟨_, hx, rfl, ?_⟩
    have hq := PRINTF_fields s ((if s.verbose ≠ 0 then x else x.drop 5) ++ [10])
    have hfields : ∀ r : Client × Int, r = (s, 0) ∨
        r = PRINTF s ((if s.verbose ≠ 0 then x else x.drop 5) ++ [10]) →
        r.1.init = s.init ∧ r.1.once = s.once ∧ r.1.restricted = s.restricted ∧
          r.1.init_cmd = s.init_cmd := by
      intro r hr
      rcases hr with rfl | rfl
      · exact ⟨rfl, rfl, rfl, rfl⟩
      · unfold PRINTF
        split_ifs <;> exact ⟨rfl, rfl, rfl, rfl⟩
    have hr := hfields (if c ≠ 0 then PRINTF s ((if s.verbose ≠ 0 then x else x.drop 5) ++ [10])
      else (s, 0)) (by split_ifs <;> simp)
    obtain ⟨h1, h2, h3, h4⟩ := hr
    simp only [select_loop_head, init_commands, h1, h2, h3, h4, hres, hcmd]
    simp [hinit, honce]
  · intro n h0 h9
    obtain ⟨m, rfl⟩ := Int.eq_ofNat_of_zero_le h0
    have hm : m < 10000 := by omega
    have hform : four_digit_form
        [48 + m / 1000, 48 + m / 100 % 10, 48 + m / 10 % 10, 48 + m % 10, 32] := by
      refine ⟨by simp, ?_, ?_, ?_, ?_, Or.inl rfl⟩ <;>
        simp only [List.getD_cons_zero, List.getD_cons_succ, isdigit_iff] <;> omega
    have hcode := reply_code_four_digit _ hform
    have hval : four_digit_value
        [48 + m / 1000, 48 + m / 100 % 10, 48 + m / 10 % 10, 48 + m % 10, 32] = (m : Int) := by
      simp only [four_digit_value, List.getD_cons_zero, List.getD_cons_succ]
      push_cast
      omega
    rw [hval] at hcode
    refine ⟨_, hform, ?_, hcode⟩
    rw [classify_terminal_iff]
    refine ⟨?_, ?_, ⟨_, hcode⟩, rfl⟩ <;>
      simp only [List.getD_cons_zero] <;> omega

/-- C6 at `2000 ok` and `8001 fail`, and as a whole run: banner, the batch
command `show status` sent in one write, the reply `2000 ok`, exit status 0. -/
theorem batch_exit_status_witness :
    (∃ s', server_got_reply { Client.initial with once := 1 } (bytes "2000 ok") = .ret s' ∧
        select_loop_head ⟨some, .ret⟩ s' = .exit 0) ∧
      (∃ s', server_got_reply { Client.initial with once := 1 } (bytes "8001 fail") = .ret s' ∧
        select_loop_head ⟨some, .ret⟩ s' = .exit 1) ∧
      ((server_got_reply
          { Client.initial with
            once := 1, init_cmd := some (bytes "show status"), writes := [.wrote 12] }
          (bytes "0001 BIRD ready.")).bind fun s1 =>
        (select_loop_head ⟨some, .ret⟩ s1).bind fun s2 =>
          (server_got_reply s2 (bytes "2000 ok")).bind fun s3 =>
            select_loop_head ⟨some, .ret⟩ s3) = .exit 0 := by
  refine ⟨?_, ?_, by decide⟩
  · obtain ⟨s', h1, -, h3⟩ := (batch_exit_status ⟨some, .ret⟩ { Client.initial with once := 1 }
      (bytes "2000 ok") 2000 (by decide) (by decide) rfl rfl (by decide) (by decide)).1
    exact ⟨s', h1, h3⟩
  · obtain ⟨s', h1, -, h3⟩ := (batch_exit_status ⟨some, .ret⟩ { Client.initial with once := 1 }
      (bytes "8001 fail") 8001 (by decide) (by decide) rfl rfl (by decide) (by decide)).1
    exact ⟨s', h1, h3⟩

/-! ## The frame decoder -/

theorem splitOn_newline_free (l : List Nat) (h : 10 ∉ l) : l.splitOn 10 = [l] := by
  unfold List.splitOn
  apply List.splitOnP_eq_single
  intro b hb hp
  rw [beq_iff_eq] at hp
  exact h (hp ▸ hb)

theorem splitOn_first_newline (pre rest : List Nat) (h : 10 ∉ pre) :
    (pre ++ 10 :: rest).splitOn 10 = pre :: rest.splitOn 10 := by
  unfold List.splitOn
  apply List.splitOnP_first
  · intro b hb hp
    rw [beq_iff_eq] at hp
    exact h (hp ▸ hb)
  · exact beq_self_eq_true 10

theorem splitOn_ne_nil (l : List Nat) : l.splitOn 10 ≠ [] := by
  unfold List.splitOn
  exact List.splitOnP_ne_nil _ _

theorem stream_lines_newline_free (l : List Nat) (h : 10 ∉ l) : stream_lines l = [] := by
  unfold stream_lines
  rw [splitOn_newline_free l h]
  rfl

theorem stream_tail_newline_free (l : List Nat) (h : 10 ∉ l) : stream_tail l = l := by
  unfold stream_tail
  rw [splitOn_newline_free l h]
  rfl

theorem stream_lines_first_newline (pre rest : List Nat) (h : 10 ∉ pre) :
    stream_lines (pre ++ 10 :: rest) = pre :: stream_lines rest := by
  unfold stream_lines
  rw [splitOn_first_newline pre rest h]
  cases hs : rest.splitOn 10 with
  | nil => exact absurd hs (splitOn_ne_nil rest)
  | cons a as => rfl

theorem stream_tail_first_newline (pre rest : List Nat) (h : 10 ∉ pre) :
    stream_tail (pre ++ 10 :: rest) = stream_tail rest := by
  unfold stream_tail
  rw [splitOn_first_newline pre rest h]
  cases hs : rest.splitOn 10 with
  | nil => exact absurd hs (splitOn_ne_nil rest)
  | cons a as => rw [List.getLastD_cons, List.getLastD_cons, List.getLastD_cons]

theorem not_mem_snoc (line : List Nat) (b : Nat) (h : 10 ∉ line) (hb : b ≠ 10) :
    10 ∉ line ++ [b] := by
  intro hm
  rcases List.mem_append.1 hm with h1 | h1
  · exact h h1
  · rw [List.mem_singleton] at h1
    exact hb h1.symm

theorem snoc_append (line : List Nat) (b : Nat) (rest : List Nat) :
    (line ++ [b]) ++ rest = line ++ b :: rest := by
  rw [List.append_assoc]; rfl

/-- The scanning loop finds the lines of `line ++ bs` and leaves its tail. -/
theorem server_read_scan_eq (bs : List Nat) :
    ∀ (line : List Nat) (moved : Bool), 10 ∉ line →
      (server_read_scan line moved bs).1 = (stream_lines (line ++ bs)).map cstr ∧
        (server_read_scan line moved bs).2.1 = stream_tail (line ++ bs) := by
  induction bs with
  | nil =>
    intro line moved h
    rw [List.append_nil, stream_lines_newline_free line h, stream_tail_newline_free line h]
    exact ⟨rfl, rfl⟩
  | cons b rest ih =>
    intro line moved h
    unfold server_read_scan
    by_cases hb : b = 10
    · subst hb
      rw [if_pos rfl, stream_lines_first_newline line rest h,
        stream_tail_first_newline line rest h]
      have hr := ih [] true (List.not_mem_nil 10)
      rw [List.nil_append] at hr
      exact ⟨by rw [List.map_cons, ← hr.1], hr.2⟩
    · rw [if_neg hb]
      have hr := ih (line ++ [b]) moved (not_mem_snoc line b h hb)
      rw [snoc_append] at hr
      exact hr

theorem server_read_scan_newline_free (bs : List Nat) :
    ∀ (line : List Nat) (moved : Bool), 10 ∉ bs →
      server_read_scan line moved bs = ([], line ++ bs, moved) := by
  induction bs with
  | nil => intro line moved _; rw [List.append_nil]; rfl
  | cons b rest ih =>
    intro line moved h
    have hb : b ≠ 10 := fun e => h (e ▸ List.mem_cons_self b rest)
    unfold server_read_scan
    rw [if_neg hb, ih (line ++ [b]) moved (fun e => h (List.mem_cons_of_mem b e)),
      snoc_append]

theorem server_read_scan_moved (bs : List Nat) :
    ∀ (line : List Nat) (moved : Bool),
      (server_read_scan line moved bs).2.2 = (moved || decide (10 ∈ bs)) := by
  induction bs with
  | nil => intro line moved; simp [server_read_scan]
  | cons b rest ih =>
    intro line moved
    unfold server_read_scan
    by_cases hb : b = 10
    · subst hb
      rw [if_pos rfl]
      simp [ih]
    · rw [if_neg hb, ih]
      have : (10 : Nat) ≠ b := fun h => hb h.symm
      simp [this]

theorem server_read_scan_tail_le (bs : List Nat) :
    ∀ (line : List Nat) (moved : Bool),
      (server_read_scan line moved bs).2.1.length ≤ line.length + bs.length := by
  induction bs with
  | nil => intro line moved; simp [server_read_scan]
  | cons b rest ih =>
    intro line moved
    unfold server_read_scan
    by_cases hb : b = 10
    · rw [if_pos hb]
      have := ih [] true
      simp only [List.length_nil, List.length_cons] at this ⊢
      omega
    · rw [if_neg hb]
      have := ih (line ++ [b]) moved
      simp only [List.length_append, List.length_cons, List.length_nil] at this ⊢
      omega

theorem server_read_scan_tail_lt (bs : List Nat) :
    ∀ (line : List Nat) (moved : Bool), 10 ∈ bs →
      (server_read_scan line moved bs).2.1.length < bs.length := by
  induction bs with
  | nil => intro line moved h; simp at h
  | cons b rest ih =>
    intro line moved h
    unfold server_read_scan
    by_cases hb : b = 10
    · rw [if_pos hb]
      have := server_read_scan_tail_le rest [] true
      simp only [List.length_nil, List.length_cons] at this ⊢
      omega
    · rw [if_neg hb]
      have hr : 10 ∈ rest := by
        rcases List.mem_cons.1 h with h1 | h1
        · exact absurd h1.symm hb
        · exact h1
      have := ih (line ++ [b]) moved hr
      simp only [List.length_cons]
      omega

theorem stream_tail_no_newline (a : List Nat) :
    ∀ pre : List Nat, 10 ∉ pre → 10 ∉ stream_tail (pre ++ a) := by
  induction a with
  | nil =>
    intro pre h
    rw [List.append_nil, stream_tail_newline_free pre h]
    exact h
  | cons b rest ih =>
    intro pre h
    by_cases hb : b = 10
    · subst hb
      rw [stream_tail_first_newline pre rest h]
      have := ih [] (List.not_mem_nil 10)
      rwa [List.nil_append] at this
    · rw [← snoc_append]
      exact ih (pre ++ [b]) (not_mem_snoc pre b h hb)

theorem stream_append (a b : List Nat) :
    ∀ pre : List Nat, 10 ∉ pre →
      stream_lines (pre ++ a ++ b) =
          stream_lines (pre ++ a) ++ stream_lines (stream_tail (pre ++ a) ++ b) ∧
        stream_tail (pre ++ a ++ b) = stream_tail (stream_tail (pre ++ a) ++ b) := by
  induction a with
  | nil =>
    intro pre h
    rw [List.append_nil, stream_lines_newline_free pre h, stream_tail_newline_free pre h]
    exact ⟨rfl, rfl⟩
  | cons x rest ih =>
    intro pre h
    by_cases hx : x = 10
    · subst hx
      have hr := ih [] (List.not_mem_nil 10)
      simp only [List.nil_append] at hr
      have e : pre ++ 10 :: rest ++ b = pre ++ 10 :: (rest ++ b) := by simp
      rw [e, stream_lines_first_newline pre (rest ++ b) h,
        stream_tail_first_newline pre (rest ++ b) h, stream_lines_first_newline pre rest h,
        stream_tail_first_newline pre rest h, hr.1, hr.2]
      exact ⟨rfl, rfl⟩
    · have hr := ih (pre ++ [x]) (not_mem_snoc pre x h hx)
      rw [snoc_append] at hr
      exact hr

theorem server_read_frame_eq (buf c : List Nat) (hb : 10 ∉ buf)
    (hno : ¬ (10 ∉ c ∧ buf.length + c.length = SERVER_READ_BUF_LEN)) :
    server_read_frame buf c = ((stream_lines (buf ++ c)).map cstr, stream_tail (buf ++ c)) := by
  have hs := server_read_scan_eq c buf false hb
  have hm := server_read_scan_moved c buf false
  unfold server_read_frame
  simp only
  by_cases h10 : 10 ∈ c
  · rw [hm]
    simp only [h10, decide_True, Bool.or_true, if_true]
    rw [hs.1, hs.2]
  · rw [hm]
    simp only [h10, decide_False, Bool.or_false, Bool.false_eq_true, if_false]
    have hne : ¬ buf.length + c.length = SERVER_READ_BUF_LEN := fun h => hno ⟨h10, h⟩
    rw [if_neg hne, hs.1, hs.2]

theorem server_read_frame_overflow (buf c : List Nat) (h10 : 10 ∉ c)
    (hlen : buf.length + c.length = SERVER_READ_BUF_LEN) :
    server_read_frame buf c = ([], bytes "?<too-long>") := by
  unfold server_read_frame
  simp only
  rw [server_read_scan_newline_free c buf false h10]
  simp only [Bool.false_eq_true, if_false]
  rw [if_pos hlen]

theorem exists_first_newline (l : List Nat) (h : 10 ∈ l) :
    ∃ pre rest, l = pre ++ 10 :: rest ∧ 10 ∉ pre := by
  induction l with
  | nil => simp at h
  | cons b l ih =>
    by_cases hb : b = 10
    · exact ⟨[], l, by rw [hb]; rfl, List.not_mem_nil 10⟩
    · have hl : 10 ∈ l := by
        rcases List.mem_cons.1 h with h1 | h1
        · exact absurd h1.symm hb
        · exact h1
      obtain ⟨pre, rest, e, hp⟩ := ih hl
      refine ⟨b :: pre, rest, by rw [e]; rfl, ?_⟩
      intro hm
      rcases List.mem_cons.1 hm with h1 | h1
      · exact hb h1.symm
      · exact hp h1

theorem stream_lines_subset (a : List Nat) :
    ∀ pre : List Nat, 10 ∉ pre → ∀ l ∈ stream_lines (pre ++ a), ∀ b ∈ l, b ∈ pre ++ a := by
  induction a with
  | nil =>
    intro pre h l hl
    rw [List.append_nil, stream_lines_newline_free pre h] at hl
    exact absurd hl (List.not_mem_nil l)
  | cons x rest ih =>
    intro pre h l hl b hb
    by_cases hx : x = 10
    · subst hx
      rw [stream_lines_first_newline pre rest h] at hl
      rcases List.mem_cons.1 hl with e | hm
      · subst e
        exact List.mem_append_left _ hb
      · have := ih [] (List.not_mem_nil 10) l (by rwa [List.nil_append]) b hb
        rw [List.nil_append] at this
        exact List.mem_append_right _ (List.mem_cons_of_mem _ this)
    · have := ih (pre ++ [x]) (not_mem_snoc pre x h hx) l (by rwa [snoc_append]) b hb
      rwa [snoc_append] at this

theorem cstr_nul_free (l : List Nat) (h : 0 ∉ l) : cstr l = l := by
  unfold cstr
  rw [List.takeWhile_eq_self_iff]
  intro b hb
  have : b ≠ 0 := fun e => h (e ▸ hb)
  simpa using this

theorem map_cstr_nul_free (ls : List (List Nat)) (h : ∀ l ∈ ls, 0 ∉ l) : ls.map cstr = ls := by
  induction ls with
  | nil => rfl
  | cons l ls ih =>
    rw [List.map_cons, cstr_nul_free l (h l (List.mem_cons_self l ls)),
      ih (fun m hm => h m (List.mem_cons_of_mem l hm))]

/-- Successive reads that never fill the buffer without a newline decode the
lines of the whole stream. -/
theorem server_read_frames_eq (chunks : List (List Nat)) :
    ∀ buf : List Nat, 10 ∉ buf →
      (∀ l ∈ stream_lines (buf ++ chunks.flatten), l.length < SERVER_READ_BUF_LEN) →
      (stream_tail (buf ++ chunks.flatten)).length < SERVER_READ_BUF_LEN →
      server_read_frames buf chunks =
        ((stream_lines (buf ++ chunks.flatten)).map cstr,
          stream_tail (buf ++ chunks.flatten)) := by
  induction chunks with
  | nil =>
    intro buf hb _ _
    rw [List.flatten_nil, List.append_nil, stream_lines_newline_free buf hb,
      stream_tail_newline_free buf hb]
    rfl
  | cons c cs ih =>
    intro buf hb hl ht
    have e : buf ++ (c :: cs).flatten = buf ++ c ++ cs.flatten := by
      rw [List.flatten_cons, List.append_assoc]
    rw [e] at hl ht ⊢
    have hsplit := stream_append c cs.flatten buf hb
    have hno : ¬ (10 ∉ c ∧ buf.length + c.length = SERVER_READ_BUF_LEN) := by
      rintro ⟨hc, hlen⟩
      have hbc : 10 ∉ buf ++ c := by
        intro hm
        rcases List.mem_append.1 hm with h1 | h1
        · exact hb h1
        · exact hc h1
      by_cases hj : 10 ∈ cs.flatten
      · obtain ⟨pre, rest, ej, hp⟩ := exists_first_newline _ hj
        have hbcp : 10 ∉ buf ++ c ++ pre := by
          intro hm
          rcases List.mem_append.1 hm with h1 | h1
          · exact hbc h1
          · exact hp h1
        have e2 : buf ++ c ++ cs.flatten = (buf ++ c ++ pre) ++ 10 :: rest := by
          rw [ej]; simp
        rw [e2, stream_lines_first_newline _ rest hbcp] at hl
        have := hl (buf ++ c ++ pre) (List.mem_cons_self _ _)
        simp only [List.length_append] at this
        omega
      · have hall : 10 ∉ buf ++ c ++ cs.flatten := by
          intro hm
          rcases List.mem_append.1 hm with h1 | h1
          · exact hbc h1
          · exact hj h1
        rw [stream_tail_newline_free _ hall] at ht
        simp only [List.length_append] at ht
        omega
    have hf := server_read_frame_eq buf c hb hno
    have ht1 : 10 ∉ stream_tail (buf ++ c) := stream_tail_no_newline c buf hb
    have hrec := ih (stream_tail (buf ++ c)) ht1
      (fun l hm => hl l (by rw [hsplit.1]; exact List.mem_append_right _ hm))
      (by rw [← hsplit.2]; exact ht)
    unfold server_read_frames
    simp only
    rw [hf]
    simp only
    rw [hrec, hsplit.1, hsplit.2, List.map_append]

theorem marker_length : (bytes "?<too-long>").length = 11 := by decide

theorem server_read_frame_length (buf c : List Nat) (hb : buf.length ≤ SERVER_READ_BUF_LEN)
    (hc : c.length ≤ SERVER_READ_BUF_LEN - buf.length) :
    (server_read_frame buf c).2.length < SERVER_READ_BUF_LEN := by
  by_cases h10 : 10 ∈ c
  · have hm := server_read_scan_moved c buf false
    have hlt := server_read_scan_tail_lt c buf false h10
    unfold server_read_frame
    simp only
    rw [hm]
    simp only [h10, decide_True, Bool.or_true, if_true]
    omega
  · by_cases hlen : buf.length + c.length = SERVER_READ_BUF_LEN
    · rw [server_read_frame_overflow buf c h10 hlen]
      show (bytes "?<too-long>").length < SERVER_READ_BUF_LEN
      rw [marker_length]
      decide
    · unfold server_read_frame
      simp only
      rw [server_read_scan_newline_free c buf false h10]
      simp only [Bool.false_eq_true, if_false]
      rw [if_neg hlen, List.length_append]
      omega

theorem server_got_replies_nil (s : Client) : server_got_replies s [] = .ret s := rfl

theorem server_read_data (s : Client) (c : List Nat) (rs : List ReadResult)
    (h1 : 1 ≤ c.length) (h2 : c.length ≤ SERVER_READ_BUF_LEN - s.server_read_buf.length) :
    server_read { s with reads := .data c :: rs } =
      (server_got_replies { s with reads := rs } (server_read_frame s.server_read_buf c).1).bind
        fun s1 => .ret { s1 with server_read_buf := (server_read_frame s.server_read_buf c).2 } := by
  have hne : ¬ c.length = 0 := by omega
  have hle : ¬ c.length > SERVER_READ_BUF_LEN - s.server_read_buf.length := by omega
  simp only [server_read, server_read_redo, if_neg hne, if_neg hle]

theorem server_read_frames_cons (buf c : List Nat) (cs : List (List Nat)) :
    server_read_frames buf (c :: cs) =
      ((server_read_frame buf c).1 ++ (server_read_frames (server_read_frame buf c).2 cs).1,
        (server_read_frames (server_read_frame buf c).2 cs).2) := rfl

theorem server_read_frames_quiet (cs : List (List Nat)) :
    ∀ buf : List Nat, (∀ c ∈ cs, 10 ∉ c) →
      buf.length + cs.flatten.length < SERVER_READ_BUF_LEN →
      ∀ more : List (List Nat),
        server_read_frames buf (cs ++ more) = server_read_frames (buf ++ cs.flatten) more := by
  induction cs with
  | nil => intro buf _ _ more; simp
  | cons c cs ih =>
    intro buf hc hlen more
    have h10 : 10 ∉ c := hc c (List.mem_cons_self c cs)
    simp only [List.flatten_cons, List.length_append] at hlen
    have hf : server_read_frame buf c = ([], buf ++ c) := by
      unfold server_read_frame
      simp only
      rw [server_read_scan_newline_free c buf false h10]
      simp only [Bool.false_eq_true, if_false]
      rw [if_neg (by omega)]
    rw [List.cons_append, server_read_frames_cons, hf]
    simp only [List.nil_append]
    rw [ih (buf ++ c) (fun d hd => hc d (List.mem_cons_of_mem c hd))
      (by rw [List.length_append]; omega) more, List.flatten_cons, List.append_assoc]

theorem server_read_frame_first_line (buf pre rest : List Nat) (hp : 10 ∉ pre) :
    (server_read_frame buf (pre ++ 10 :: rest)).1.head? = some (cstr (buf ++ pre)) := by
  have hscan : ∀ (p line : List Nat) (moved : Bool), 10 ∉ p →
      (server_read_scan line moved (p ++ 10 :: rest)).1.head? = some (cstr (line ++ p)) := by
    intro p
    induction p with
    | nil =>
      intro line moved _
      rw [List.nil_append, List.append_nil]
      unfold server_read_scan
      rw [if_pos rfl]
      rfl
    | cons b p ih =>
      intro line moved h
      have hb : b ≠ 10 := fun e => h (e ▸ List.mem_cons_self b p)
      rw [List.cons_append]
      unfold server_read_scan
      rw [if_neg hb, ih (line ++ [b]) moved (fun e => h (List.mem_cons_of_mem b e)),
        snoc_append]
  have h := hscan pre buf false hp
  unfold server_read_frame
  simp only
  split_ifs <;> exact h

theorem bind_eq_ret {α β : Type} (o : Outcome α) (f : α → Outcome β) (b : β)
    (h : o.bind f = .ret b) : ∃ a, o = .ret a ∧ f a = .ret b := by
  cases o with
  | ret a => exact ⟨a, rfl, h⟩
  | exit st => cases h
  | die => cases h
  | hang => cases h
  | undefined => cases h

/-- A returning run of `server_read` calls had reads that fit the buffer, and
leaves the buffer the decoder computes. -/
theorem server_read_calls_buf (chunks : List (List Nat)) :
    ∀ s s' : Client, server_read_calls s chunks = .ret s' →
      reads_fit s.server_read_buf chunks = true ∧
        s'.server_read_buf = (server_read_frames s.server_read_buf chunks).2 := by
  induction chunks with
  | nil =>
    intro s s' h
    simp only [server_read_calls] at h
    cases h
    exact ⟨rfl, rfl⟩
  | cons c cs ih =>
    intro s s' h
    simp only [server_read_calls] at h
    obtain ⟨s1, h1, h2⟩ := bind_eq_ret _ _ _ h
    simp only [server_read, server_read_redo] at h1
    split_ifs at h1 with hz hbig
    obtain ⟨s0, -, h0⟩ := bind_eq_ret _ _ _ h1
    cases h0
    obtain ⟨hf, hb⟩ := ih _ _ h2
    rw [server_read_frames_cons]
    refine ⟨?_, hb⟩
    simp only [reads_fit, Bool.and_eq_true, decide_eq_true_eq]
    exact ⟨⟨by omega, by omega⟩, hf⟩

theorem server_got_replies_append (xs ys : List (List Nat)) :
    ∀ s : Client, server_got_replies s (xs ++ ys) =
      (server_got_replies s xs).bind fun s1 => server_got_replies s1 ys := by
  induction xs with
  | nil => intro s; rfl
  | cons x xs ih =>
    intro s
    simp only [List.cons_append, server_got_replies]
    cases server_got_reply s x with
    | ret s1 => simp only [Outcome.bind]; exact ih s1
    | exit st => rfl
    | die => rfl
    | hang => rfl
    | undefined => rfl

/-! ## `server_got_reply` does not look at the read buffer -/

theorem more_redo_read_state (b : List Nat) (r : List ReadResult) (ks : List Int) :
    ∀ s : Client, more_redo (with_read_state b r s) ks =
      (more_redo s ks).bind fun t => .ret (with_read_state b r t) := by
  induction ks with
  | nil => intro s; rfl
  | cons k ks ih =>
    intro s
    unfold more_redo
    split_ifs
    · rfl
    · rfl
    · rfl
    · exact ih s

theorem more_read_state (b : List Nat) (r : List ReadResult) (s : Client) :
    more (with_read_state b r s) = (more s).bind fun t => .ret (with_read_state b r t) := by
  unfold more
  simp only
  have h := more_redo_read_state b r s.keys { s with stdout := s.stdout ++ bytes "--More--\r" }
  have e : more_redo { with_read_state b r s with
        stdout := (with_read_state b r s).stdout ++ bytes "--More--\r" }
      (with_read_state b r s).keys =
      more_redo (with_read_state b r { s with stdout := s.stdout ++ bytes "--More--\r" })
        s.keys := rfl
  rw [e, h]
  cases more_redo { s with stdout := s.stdout ++ bytes "--More--\r" } s.keys <;> rfl

theorem pager_read_state (b : List Nat) (r : List ReadResult) (s : Client) (len : Int) :
    pager (with_read_state b r s) len =
      (pager s len).bind fun t => .ret (with_read_state b r t) := by
  by_cases hc : s.interactive ≠ 0 ∧ s.busy ≠ 0 ∧ s.skip_input = 0 ∧ s.init = 0 ∧ len > 0
  · have hcW : (with_read_state b r s).interactive ≠ 0 ∧ (with_read_state b r s).busy ≠ 0 ∧
        (with_read_state b r s).skip_input = 0 ∧ (with_read_state b r s).init = 0 ∧ len > 0 := hc
    by_cases hz : s.term_cls = 0
    · have hzW : (with_read_state b r s).term_cls = 0 := hz
      simp only [pager, if_pos hc, if_pos hcW, if_pos hz, if_pos hzW, Outcome.bind]
    · have hzW : ¬ (with_read_state b r s).term_cls = 0 := hz
      by_cases hn : s.num_lines + Int.tdiv (len + s.term_cls - 1) s.term_cls ≥ s.term_lns
      · have e1 : pager s len =
            more { s with
              num_lines := s.num_lines + Int.tdiv (len + s.term_cls - 1) s.term_cls } := by
          simp only [pager, if_pos hc, if_neg hz]
          rw [if_pos hn]
        have e2 : pager (with_read_state b r s) len =
            more (with_read_state b r { s with
              num_lines := s.num_lines + Int.tdiv (len + s.term_cls - 1) s.term_cls }) := by
          simp only [pager, if_pos hcW, if_neg hzW]
          rw [if_pos (show (with_read_state b r s).num_lines +
            Int.tdiv (len + (with_read_state b r s).term_cls - 1)
              (with_read_state b r s).term_cls ≥ (with_read_state b r s).term_lns from hn)]
          rfl
        rw [e1, e2, more_read_state]
      · have e1 : pager s len =
            .ret { s with
              num_lines := s.num_lines + Int.tdiv (len + s.term_cls - 1) s.term_cls } := by
          simp only [pager, if_pos hc, if_neg hz]
          rw [if_neg hn]
        have e2 : pager (with_read_state b r s) len =
            .ret (with_read_state b r { s with
              num_lines := s.num_lines + Int.tdiv (len + s.term_cls - 1) s.term_cls }) := by
          simp only [pager, if_pos hcW, if_neg hzW]
          rw [if_neg (show ¬ (with_read_state b r s).num_lines +
            Int.tdiv (len + (with_read_state b r s).term_cls - 1)
              (with_read_state b r s).term_cls ≥ (with_read_state b r s).term_lns from hn)]
          rfl
        rw [e1, e2]
        rfl
  · have hcW : ¬ ((with_read_state b r s).interactive ≠ 0 ∧ (with_read_state b r s).busy ≠ 0 ∧
        (with_read_state b r s).skip_input = 0 ∧ (with_read_state b r s).init = 0 ∧ len > 0) :=
      hc
    simp only [pager, if_neg hc, if_neg hcW, Outcome.bind]

theorem PRINTF_read_state (b : List Nat) (r : List ReadResult) (s : Client) (t : List Nat) :
    PRINTF (with_read_state b r s) t = (with_read_state b r (PRINTF s t).1, (PRINTF s t).2) := by
  by_cases hs : s.skip_input = 0
  · have hsW : (with_read_state b r s).skip_input = 0 := hs
    simp only [PRINTF, if_pos hs, if_pos hsW]
    rfl
  · have hsW : ¬ (with_read_state b r s).skip_input = 0 := hs
    simp only [PRINTF, if_neg hs, if_neg hsW]

theorem coded_print_read_state (b : List Nat) (r : List ReadResult) (s : Client) (c : Int)
    (t : List Nat) :
    (if c ≠ 0 then PRINTF (with_read_state b r s) t else (with_read_state b r s, 0)) =
      (with_read_state b r (if c ≠ 0 then PRINTF s t else (s, 0)).1,
        (if c ≠ 0 then PRINTF s t else (s, 0)).2) := by
  by_cases hc : c ≠ 0
  · simp only [if_pos hc, PRINTF_read_state]
  · simp only [if_neg hc]

theorem handle_read_state (b : List Nat) (r : List ReadResult) (k : Kind) (s : Client)
    (x : List Nat) :
    handle k (with_read_state b r s) x =
      (handle k s x).bind fun t => .ret (with_read_state b r t) := by
  have hv : (with_read_state b r s).verbose = s.verbose := rfl
  cases k with
  | async => simp only [handle, PRINTF_read_state, pager_read_state]
  | continuation => simp only [handle, hv, PRINTF_read_state, pager_read_state]
  | coded_terminal =>
    simp only [handle, hv, coded_print_read_state, Outcome.bind]
    rfl
  | coded_nonterminal =>
    simp only [handle, hv, coded_print_read_state]
    exact pager_read_state b r
      { (if (reply_code x).getD 0 ≠ 0 then
          PRINTF s ((if s.verbose ≠ 0 then x else x.drop 5) ++ [10]) else (s, 0)).1 with
        last_code := (reply_code x).getD 0 }
      (if (reply_code x).getD 0 ≠ 0 then
        PRINTF s ((if s.verbose ≠ 0 then x else x.drop 5) ++ [10]) else (s, 0)).2
  | malformed => simp only [handle, PRINTF_read_state, pager_read_state]

theorem server_got_reply_read_state (b : List Nat) (r : List ReadResult) (s : Client)
    (x : List Nat) :
    server_got_reply (with_read_state b r s) x =
      (server_got_reply s x).bind fun t => .ret (with_read_state b r t) := by
  rw [server_got_reply_eq_handle, server_got_reply_eq_handle, handle_read_state]

theorem server_got_replies_read_state (b : List Nat) (r : List ReadResult)
    (xs : List (List Nat)) :
    ∀ s : Client, server_got_replies (with_read_state b r s) xs =
      (server_got_replies s xs).bind fun t => .ret (with_read_state b r t) := by
  induction xs with
  | nil => intro s; rfl
  | cons x xs ih =>
    intro s
    simp only [server_got_replies, server_got_reply_read_state]
    cases server_got_reply s x with
    | ret s1 => simp only [Outcome.bind]; exact ih s1
    | exit st => rfl
    | die => rfl
    | hang => rfl
    | undefined => rfl

/-- Successive calls of `server_read` do what calling `server_got_reply` on the
lines of the decoder, in order, does, and leave the buffer of the decoder. -/
theorem server_read_calls_eq (chunks : List (List Nat)) :
    ∀ s : Client, reads_fit s.server_read_buf chunks = true →
      server_read_calls s chunks =
        (server_got_replies s (server_read_frames s.server_read_buf chunks).1).bind fun t =>
          .ret (with_read_state (server_read_frames s.server_read_buf chunks).2
            (if chunks = [] then s.reads else []) t) := by
  induction chunks with
  | nil =>
    intro s _
    simp only [server_read_calls, server_read_frames, server_got_replies, Outcome.bind, if_true]
    rfl
  | cons c cs ih =>
    intro s hfit
    simp only [reads_fit, Bool.and_eq_true, decide_eq_true_eq] at hfit
    obtain ⟨⟨h1, h2⟩, h3⟩ := hfit
    have hread := server_read_data s c [] h1 h2
    have e0 : ({ s with reads := [] } : Client) = with_read_state s.server_read_buf [] s := rfl
    rw [e0, server_got_replies_read_state] at hread
    rw [server_read_frames_cons]
    simp only [server_read_calls, hread, server_got_replies_append,
      if_neg (List.cons_ne_nil c cs)]
    cases hL1 : server_got_replies s (server_read_frame s.server_read_buf c).1 with
    | ret t =>
      simp only [Outcome.bind]
      have hih := ih (with_read_state (server_read_frame s.server_read_buf c).2 [] t) h3
      have e1 : ({ with_read_state s.server_read_buf [] t with
          server_read_buf := (server_read_frame s.server_read_buf c).2 } : Client) =
          with_read_state (server_read_frame s.server_read_buf c).2 [] t := rfl
      rw [e1, hih]
      have e2 : (with_read_state (server_read_frame s.server_read_buf c).2 [] t).server_read_buf =
          (server_read_frame s.server_read_buf c).2 := rfl
      have e3 : (with_read_state (server_read_frame s.server_read_buf c).2 [] t).reads = [] := rfl
      rw [e2, e3, server_got_replies_read_state, ite_self]
      cases server_got_replies t
          (server_read_frames (server_read_frame s.server_read_buf c).2 cs).1 with
      | ret u => rfl
      | exit st => rfl
      | die => rfl
      | hang => rfl
      | undefined => rfl
    | exit st => rfl
    | die => rfl
    | hang => rfl
    | undefined => rfl

theorem newline_not_mem_replicate (n : Nat) : 10 ∉ List.replicate n 97 := by
  intro h
  exact absurd (List.mem_replicate.1 h).2 (by decide)

theorem cap_pos : 1 ≤ SERVER_READ_BUF_LEN := by decide

/-- C7 as the specification states it fails.  From the empty buffer a read of
4096 bytes `a` fills the buffer without a newline: `server_read` hands no line
to `server_got_reply` (nothing is printed), and the buffer is not empty
afterwards, it holds the 11 bytes `?<too-long>`.  When `b` and a newline arrive
next, the line delivered is `?<too-long>b`. -/
theorem overflow_buffer_not_empty :
    server_read
        { Client.initial with reads := [.data (List.replicate SERVER_READ_BUF_LEN 97)] } =
        .ret { Client.initial with server_read_buf := bytes "?<too-long>" } ∧
      server_read_frame [] (List.replicate SERVER_READ_BUF_LEN 97) =
        ([], bytes "?<too-long>") ∧
      server_read_frames [] [List.replicate SERVER_READ_BUF_LEN 97, bytes "b\n"] =
        ([bytes "?<too-long>b"], []) ∧
      ¬ (∀ buf c : List Nat, 10 ∉ c → buf.length + c.length = SERVER_READ_BUF_LEN →
          (server_read_frame buf c).2 = []) := by
  have hlen : ([] : List Nat).length + (List.replicate SERVER_READ_BUF_LEN 97).length =
      SERVER_READ_BUF_LEN := by
    rw [List.length_replicate]; rfl
  have hf := server_read_frame_overflow [] (List.replicate SERVER_READ_BUF_LEN 97)
    (newline_not_mem_replicate _) hlen
  refine ⟨?_, hf, ?_, ?_⟩
  · have h := server_read_data Client.initial (List.replicate SERVER_READ_BUF_LEN 97) []
      (by rw [List.length_replicate]; exact cap_pos)
      (by rw [List.length_replicate]; exact Nat.le_refl _)
    have e : Client.initial.server_read_buf = [] := rfl
    rw [e, hf] at h
    exact h
  · rw [server_read_frames_cons, hf]
    decide
  · intro h
    have h2 := h [] (List.replicate SERVER_READ_BUF_LEN 97) (newline_not_mem_replicate _) hlen
    rw [hf] at h2
    exact absurd h2 (by decide)

/-- C7, amended.  A read that fills the buffer to its 4096 bytes without
bringing a newline makes `server_read` discard the buffered bytes, hand no line
to `server_got_reply` in that call, and leave the 11 bytes `?<too-long>` in the
buffer.  When a newline arrives before the buffer fills again, the following
calls of `server_read` hand to `server_got_reply` first that marker followed by
the bytes received since, up to the newline, as a C string: cut at its first
NUL byte if it has one, whole if the bytes received hold no NUL. -/
theorem overflow_marker (s : Client) (c : List Nat) (rs : List ReadResult)
    (hc : 10 ∉ c) (hlen : s.server_read_buf.length + c.length = SERVER_READ_BUF_LEN)
    (hpos : 1 ≤ c.length) :
    server_read { s with reads := .data c :: rs } =
        .ret { s with reads := rs, server_read_buf := bytes "?<too-long>" } ∧
      (bytes "?<too-long>").length = 11 ∧
      (∀ (cs : List (List Nat)) (pre rest : List Nat), (∀ d ∈ cs, 10 ∉ d) →
        11 + cs.flatten.length < SERVER_READ_BUF_LEN → 10 ∉ pre →
        (server_read_frames (bytes "?<too-long>") (cs ++ [pre ++ 10 :: rest])).1.head? =
          some (cstr (bytes "?<too-long>" ++ cs.flatten ++ pre))) ∧
      (∀ (t : Client) (cs : List (List Nat)) (pre rest : List Nat),
        t.server_read_buf = bytes "?<too-long>" → (∀ d ∈ cs, 10 ∉ d) →
        11 + cs.flatten.length < SERVER_READ_BUF_LEN → 10 ∉ pre →
        reads_fit (bytes "?<too-long>") (cs ++ [pre ++ 10 :: rest]) = true →
        server_read_calls t (cs ++ [pre ++ 10 :: rest]) =
          (server_got_replies t
            (cstr (bytes "?<too-long>" ++ cs.flatten ++ pre) ::
              (stream_lines rest).map cstr)).bind fun u =>
            .ret { u with server_read_buf := stream_tail rest, reads := [] }) ∧
      (∀ (cs : List (List Nat)) (pre : List Nat), 0 ∉ cs.flatten → 0 ∉ pre →
        cstr (bytes "?<too-long>" ++ cs.flatten ++ pre) =
          bytes "?<too-long>" ++ cs.flatten ++ pre) := by
  refine ⟨?_, marker_length, ?_, ?_, ?_⟩
  · have h := server_read_data s c rs hpos (by omega)
    rw [server_read_frame_overflow s.server_read_buf c hc hlen] at h
    exact h
  · intro cs pre rest hcs hl hp
    rw [server_read_frames_quiet cs (bytes "?<too-long>") hcs (by rw [marker_length]; exact hl),
      server_read_frames_cons]
    have h := server_read_frame_first_line (bytes "?<too-long>" ++ cs.flatten) pre rest hp
    cases hq : (server_read_frame (bytes "?<too-long>" ++ cs.flatten) (pre ++ 10 :: rest)).1 with
    | nil => rw [hq] at h; cases h
    | cons a as => rw [hq] at h; exact h
  · intro t cs pre rest ht hcs hl hp hfit
    have hrun := server_read_calls_eq (cs ++ [pre ++ 10 :: rest]) t (by rw [ht]; exact hfit)
    have hm : 10 ∉ bytes "?<too-long>" := by decide
    have hbuf : 10 ∉ bytes "?<too-long>" ++ cs.flatten := by
      intro hmem
      rcases List.mem_append.1 hmem with h1 | h1
      · exact hm h1
      · obtain ⟨d, hd, h10⟩ := List.mem_flatten.1 h1
        exact hcs d hd h10
    have hbp : 10 ∉ bytes "?<too-long>" ++ cs.flatten ++ pre := by
      intro hmem
      rcases List.mem_append.1 hmem with h1 | h1
      · exact hbuf h1
      · exact hp h1
    have hframe := server_read_frame_eq (bytes "?<too-long>" ++ cs.flatten) (pre ++ 10 :: rest)
      hbuf (fun hno => hno.1 (List.mem_append_right _ (List.mem_cons_self 10 rest)))
    have e : bytes "?<too-long>" ++ cs.flatten ++ (pre ++ 10 :: rest) =
        (bytes "?<too-long>" ++ cs.flatten ++ pre) ++ 10 :: rest := by
      simp only [List.append_assoc]
    rw [e, stream_lines_first_newline _ rest hbp, stream_tail_first_newline _ rest hbp,
      List.map_cons] at hframe
    have hne : ¬ (cs ++ [pre ++ 10 :: rest] = []) := by simp
    rw [ht, server_read_frames_quiet cs (bytes "?<too-long>") hcs
      (by rw [marker_length]; exact hl), server_read_frames_cons, hframe, if_neg hne] at hrun
    simp only [server_read_frames, List.append_nil] at hrun
    exact hrun
  · intro cs pre h0 h1
    apply cstr_nul_free
    have hm : 0 ∉ bytes "?<too-long>" := by decide
    intro hmem
    rcases List.mem_append.1 hmem with h2 | h2
    · rcases List.mem_append.1 h2 with h3 | h3
      · exact hm h3
      · exact h0 h3
    · exact h1 h2

/-- The amended C7 at a read of 4096 bytes `a` into the empty buffer, and at the
read of `b` and a newline that follows: the line handed over is `?<too-long>b`,
which is printed as malformed. -/
theorem overflow_marker_witness :
    server_read
        { Client.initial with reads := [.data (List.replicate SERVER_READ_BUF_LEN 97)] } =
        .ret { Client.initial with reads := [], server_read_buf := bytes "?<too-long>" } ∧
      server_read_calls { Client.initial with server_read_buf := bytes "?<too-long>" }
          [bytes "b\n"] =
        .ret { Client.initial with stdout := bytes "??? <?<too-long>b>\n" } := by
  have h := overflow_marker Client.initial (List.replicate SERVER_READ_BUF_LEN 97) []
    (newline_not_mem_replicate _) (by rw [List.length_replicate]; rfl)
    (by rw [List.length_replicate]; exact cap_pos)
  refine ⟨h.1, ?_⟩
  have h4 := h.2.2.2.1 { Client.initial with server_read_buf := bytes "?<too-long>" } []
    (bytes "b") [] rfl (fun d hd => absurd hd (List.not_mem_nil d)) (by decide) (by decide)
    (by decide)
  have e : ([] : List (List Nat)) ++ [bytes "b" ++ 10 :: []] = [bytes "b\n"] := by decide
  rw [e] at h4
  rw [h4]
  decide

/-- C8.  Over every sequence of successful reads, each returning between 1 and
`capacity - cursor` bytes, every value the read cursor takes (before a read,
after `server_read_pos += c`, after the compaction or the reset) is at most
4096, and so is the length of what is left in the buffer at the end, which is
the buffer of every client that has made these `server_read` calls. -/
theorem cursor_within_buffer (chunks : List (List Nat)) (buf : List Nat)
    (hb : buf.length ≤ SERVER_READ_BUF_LEN) (hfit : reads_fit buf chunks = true) :
    (∀ p ∈ cursor_trace buf chunks, p ≤ SERVER_READ_BUF_LEN) ∧
      (server_read_frames buf chunks).2.length ≤ SERVER_READ_BUF_LEN ∧
      (∀ s s' : Client, s.server_read_buf = buf → server_read_calls s chunks = .ret s' →
        s'.server_read_buf.length ≤ SERVER_READ_BUF_LEN) := by
  have key : ∀ (cs : List (List Nat)) (b : List Nat), b.length ≤ SERVER_READ_BUF_LEN →
      reads_fit b cs = true →
      (∀ p ∈ cursor_trace b cs, p ≤ SERVER_READ_BUF_LEN) ∧
        (server_read_frames b cs).2.length ≤ SERVER_READ_BUF_LEN := by
    intro cs
    induction cs with
    | nil =>
      intro b hb _
      refine ⟨fun p hp => ?_, hb⟩
      simp only [cursor_trace, List.mem_singleton] at hp
      rw [hp]; exact hb
    | cons c cs ih =>
      intro b hb hfit
      simp only [reads_fit, Bool.and_eq_true, decide_eq_true_eq] at hfit
      obtain ⟨⟨_, h2⟩, h3⟩ := hfit
      have hnext := server_read_frame_length b c hb h2
      obtain ⟨it, il⟩ := ih (server_read_frame b c).2 (Nat.le_of_lt hnext) h3
      refine ⟨fun p hp => ?_, ?_⟩
      · simp only [cursor_trace, List.mem_cons] at hp
        rcases hp with e | e | hm
        · rw [e]; exact hb
        · rw [e]; omega
        · exact it p hm
      · rw [server_read_frames_cons]
        exact il
  obtain ⟨k1, k2⟩ := key chunks buf hb hfit
  refine ⟨k1, k2, fun s s' hs hrun => ?_⟩
  rw [(server_read_calls_buf chunks s s' hrun).2, hs]
  exact k2

/-- C8 on two reads, `ab\ncd` then `e\n\nf`, into the empty buffer. -/
theorem cursor_within_buffer_witness :
    cursor_trace [] [bytes "ab\ncd", bytes "e\n\nf"] = [0, 5, 2, 6, 1] ∧
      ∀ p ∈ cursor_trace [] [bytes "ab\ncd", bytes "e\n\nf"], p ≤ SERVER_READ_BUF_LEN :=
  ⟨by decide,
    (cursor_within_buffer [bytes "ab\ncd", bytes "e\n\nf"] [] (by decide) (by decide)).1⟩

/-- C9 as the specification states it fails.  The stream `a`, NUL, `b`, newline
arrives in one read; its only line is shorter than 4096 bytes; the line
`server_read` hands over is a C string, so `server_got_reply` receives `a`, not
the three bytes of the segment, and prints `??? <a>`. -/
theorem decoder_cuts_line_at_nul :
    reads_fit [] [[97, 0, 98, 10]] = true ∧
      stream_lines [97, 0, 98, 10] = [[97, 0, 98]] ∧
      stream_tail [97, 0, 98, 10] = [] ∧
      server_read_frames [] [[97, 0, 98, 10]] = ([[97]], []) ∧
      server_read { Client.initial with reads := [.data [97, 0, 98, 10]] } =
        .ret { Client.initial with stdout := bytes "??? <a>\n" } ∧
      ¬ (∀ chunks : List (List Nat), reads_fit [] chunks = true →
          (∀ l ∈ stream_lines chunks.flatten, l.length < SERVER_READ_BUF_LEN) →
          (stream_tail chunks.flatten).length < SERVER_READ_BUF_LEN →
          (server_read_frames [] chunks).1 = stream_lines chunks.flatten) := by
  refine ⟨by decide, by decide, by decide, by decide, by decide, ?_⟩
  intro h
  have h1 := h [[97, 0, 98, 10]] (by decide) (by decide) (by decide)
  revert h1
  decide

/-- C9, amended.  For every byte stream whose lines and unterminated tail are
all shorter than 4096 bytes, however it is split into successive reads (each
returning between 1 and `capacity - cursor` bytes), the successive calls of
`server_read` do exactly what calling `server_got_reply` on the
newline-terminated segments of the whole stream does, in order and once each,
each segment cut at its first NUL byte, and then leave the unterminated tail,
which has no newline, in the buffer.  For a stream without NUL bytes the
strings handed over are the segments themselves. -/
theorem decoder_chunking (chunks : List (List Nat))
    (hl : ∀ l ∈ stream_lines chunks.flatten, l.length < SERVER_READ_BUF_LEN)
    (ht : (stream_tail chunks.flatten).length < SERVER_READ_BUF_LEN) :
    (∀ s : Client, s.server_read_buf = [] → reads_fit [] chunks = true →
        server_read_calls s chunks =
          (server_got_replies s ((stream_lines chunks.flatten).map cstr)).bind fun t =>
            .ret { t with
              server_read_buf := stream_tail chunks.flatten
              reads := if chunks = [] then s.reads else [] }) ∧
      server_read_frames [] chunks =
        ((stream_lines chunks.flatten).map cstr, stream_tail chunks.flatten) ∧
      10 ∉ stream_tail chunks.flatten ∧
      (0 ∉ chunks.flatten → (stream_lines chunks.flatten).map cstr = stream_lines chunks.flatten) ∧
      (0 ∉ chunks.flatten →
        server_read_frames [] chunks =
          (stream_lines chunks.flatten, stream_tail chunks.flatten)) ∧
      (∀ s s' : Client, s.server_read_buf = [] → server_read_calls s chunks = .ret s' →
        s'.server_read_buf = stream_tail chunks.flatten) := by
  have hmain := server_read_frames_eq chunks [] (List.not_mem_nil 10)
    (by rw [List.nil_append]; exact hl) (by rw [List.nil_append]; exact ht)
  rw [List.nil_append] at hmain
  have htail := stream_tail_no_newline chunks.flatten [] (List.not_mem_nil 10)
  rw [List.nil_append] at htail
  have hnul : 0 ∉ chunks.flatten →
      (stream_lines chunks.flatten).map cstr = stream_lines chunks.flatten := by
    intro h0
    apply map_cstr_nul_free
    intro l hm hz
    have := stream_lines_subset chunks.flatten [] (List.not_mem_nil 10) l
      (by rw [List.nil_append]; exact hm) 0 hz
    rw [List.nil_append] at this
    exact h0 this
  refine ⟨fun s hs hfit => ?_, hmain, htail, hnul, fun h0 => ?_, fun s s' hs hrun => ?_⟩
  · have hrun := server_read_calls_eq chunks s (by rw [hs]; exact hfit)
    rw [hs, hmain] at hrun
    exact hrun
  · rw [hmain, hnul h0]
  · rw [(server_read_calls_buf chunks s s' hrun).2, hs, hmain]

/-- The amended C9 on the stream `ab\ncde\n\nf` read as `ab\ncd` and `e\n\nf`:
`server_got_reply` is called on `ab`, `cde` and the empty line, which it prints
as malformed, and `f` is left in the buffer. -/
theorem decoder_chunking_witness :
    server_read_calls Client.initial [bytes "ab\ncd", bytes "e\n\nf"] =
      .ret { Client.initial with
        stdout := bytes "??? <ab>\n??? <cde>\n??? <>\n", server_read_buf := bytes "f" } := by
  have h := (decoder_chunking [bytes "ab\ncd", bytes "e\n\nf"] (by decide) (by decide)).1
    Client.initial rfl (by decide)
  rw [h]
  decide

/-! ## The command writer -/

theorem server_send_loop_wire (ws : List WriteResult) :
    ∀ (s : Client) (z : List Nat) (s' : Client),
      server_send_loop s ws z = .ret s' → s'.wire = s.wire ++ z := by
  induction ws with
  | nil =>
    intro s z s' h
    cases z with
    | nil => simp only [server_send_loop] at h; cases h; simp
    | cons b z => simp only [server_send_loop] at h; cases h
  | cons w ws ih =>
    intro s z s' h
    cases z with
    | nil => simp only [server_send_loop] at h; cases h; simp
    | cons b z =>
      cases w with
      | wrote cnt =>
        simp only [server_send_loop] at h
        split_ifs at h
        have := ih _ _ _ h
        rw [this]
        simp only [List.append_assoc, List.take_append_drop]
      | eagain =>
        simp only [server_send_loop] at h
        cases hw : wait_for_write s.selects with
        | ret sels =>
          rw [hw] at h
          have h2 := ih { s with selects := sels } (b :: z) s' h
          exact h2
        | exit st => rw [hw] at h; cases h
        | die => rw [hw] at h; cases h
        | hang => rw [hw] at h; cases h
        | undefined => rw [hw] at h; cases h
      | eintr =>
        simp only [server_send_loop] at h
        exact ih s (b :: z) s' h
      | error => simp only [server_send_loop] at h; cases h

/-- C10.  Whatever the results of the `write` and `select` calls, if
`server_send` returns then the bytes the writes accepted, in order, are the
command followed by one newline.  A single write that accepts everything makes
it return. -/
theorem server_send_wire (s : Client) (cmd : List Nat) (s' : Client)
    (h : server_send s cmd = .ret s') :
    s'.wire = s.wire ++ cmd ++ [10] ∧
      ∀ t : Client, t.writes = [.wrote (cmd.length + 1)] →
        ∃ t', server_send t cmd = .ret t' := by
  constructor
  · have := server_send_loop_wire s.writes s (cmd ++ [10]) s' h
    rw [this, List.append_assoc]
  · intro t ht
    unfold server_send
    rw [ht]
    cases hz : cmd ++ [10] with
    | nil => simp at hz
    | cons b z =>
      have hlen : (b :: z).length = cmd.length + 1 := by rw [← hz]; simp
      simp only [server_send_loop]
      rw [if_neg (by omega), List.drop_of_length_le (by omega)]
      exact ⟨_, rfl⟩

/-- C10 on the command `hello` written in pieces of 2, 1, 0 and 3 bytes, with
a full socket and two interrupted calls in between. -/
theorem server_send_wire_witness :
    server_send
        { Client.initial with
          writes := [.wrote 2, .eagain, .eintr, .wrote 1, .wrote 0, .wrote 3],
          selects := [.eintr, .ready] } (bytes "hello") =
        .ret { Client.initial with wire := bytes "hello\n" } ∧
      ({ Client.initial with wire := bytes "hello\n" } : Client).wire =
        Client.initial.wire ++ bytes "hello" ++ [10] := by
  have h : server_send
      { Client.initial with
        writes := [.wrote 2, .eagain, .eintr, .wrote 1, .wrote 0, .wrote 3],
        selects := [.eintr, .ready] } (bytes "hello") =
      .ret { Client.initial with wire := bytes "hello\n" } := by decide
  exact ⟨h, (server_send_wire _ _ _ h).1⟩

/-! ## What each function leaves unchanged -/

theorem more_redo_keeps (s s' : Client) (ks : List Int) (h : more_redo s ks = .ret s') :
    reply_frame s' = reply_frame s := by
  induction ks with
  | nil => simp [more_redo] at h
  | cons k ks ih =>
    unfold more_redo at h
    split_ifs at h
    · cases h; rfl
    · cases h; rfl
    · cases h; rfl
    · exact ih h

theorem more_keeps (s s' : Client) (h : more s = .ret s') : reply_frame s' = reply_frame s := by
  unfold more at h
  simp only at h
  obtain ⟨s2, h2, h3⟩ := bind_eq_ret _ _ _ h
  cases h3
  have := more_redo_keeps _ _ _ h2
  exact this

theorem pager_keeps (s s' : Client) (len : Int) (h : pager s len = .ret s') :
    reply_frame s' = reply_frame s := by
  simp only [pager] at h
  split_ifs at h
  · have hm := more_keeps _ _ h
    exact hm
  · cases h; rfl
  · cases h; rfl

theorem PRINTF_keeps (s : Client) (t : List Nat) : reply_frame (PRINTF s t).1 = reply_frame s := by
  unfold PRINTF
  split_ifs <;> rfl

theorem coded_print_keeps (s : Client) (c : Int) (t : List Nat) :
    reply_frame (if c ≠ 0 then PRINTF s t else (s, 0)).1 = reply_frame s := by
  split_ifs
  · exact PRINTF_keeps s t
  · rfl

theorem handle_keeps (k : Kind) (s s' : Client) (x : List Nat) (h : handle k s x = .ret s') :
    reply_frame s' = reply_frame s := by
  cases k with
  | async => exact (pager_keeps _ _ _ h).trans (PRINTF_keeps _ _)
  | continuation => exact (pager_keeps _ _ _ h).trans (PRINTF_keeps _ _)
  | coded_terminal =>
    simp only [handle] at h
    cases h
    exact Eq.trans rfl (coded_print_keeps s ((reply_code x).getD 0)
      ((if s.verbose ≠ 0 then x else x.drop 5) ++ [10]))
  | coded_nonterminal =>
    simp only [handle] at h
    have hp := pager_keeps _ _ _ h
    exact hp.trans (Eq.trans rfl (coded_print_keeps s ((reply_code x).getD 0)
      ((if s.verbose ≠ 0 then x else x.drop 5) ++ [10])))
  | malformed => exact (pager_keeps _ _ _ h).trans (PRINTF_keeps _ _)

theorem server_got_reply_keeps (s s' : Client) (x : List Nat)
    (h : server_got_reply s x = .ret s') : reply_frame s' = reply_frame s := by
  rw [server_got_reply_eq_handle] at h
  exact handle_keeps _ _ _ _ h

theorem server_got_replies_keeps (xs : List (List Nat)) :
    ∀ s s' : Client, server_got_replies s xs = .ret s' → reply_frame s' = reply_frame s := by
  induction xs with
  | nil => intro s s' h; cases h; rfl
  | cons x xs ih =>
    intro s s' h
    simp only [server_got_replies] at h
    obtain ⟨s1, h1, h2⟩ := bind_eq_ret _ _ _ h
    exact (ih _ _ h2).trans (server_got_reply_keeps _ _ _ h1)

theorem read_frame_of_reply_frame (s s' : Client) (h : reply_frame s' = reply_frame s) :
    read_frame s' = read_frame s := by
  unfold read_frame
  rw [h]

theorem server_read_redo_returns (rs : List ReadResult) :
    ∀ s s' : Client, server_read_redo s rs = .ret s' →
      ∃ bs, 1 ≤ bs.length ∧ bs.length ≤ SERVER_READ_BUF_LEN - s.server_read_buf.length ∧
        s'.server_read_buf = (server_read_frame s.server_read_buf bs).2 ∧
        read_frame s' = read_frame s := by
  induction rs with
  | nil => intro s s' h; simp [server_read_redo] at h
  | cons r rs ih =>
    intro s s' h
    cases r with
    | eintr => simp only [server_read_redo] at h; exact ih s s' h
    | eof => simp [server_read_redo] at h
    | error => simp [server_read_redo] at h
    | data bs =>
      simp only [server_read_redo] at h
      split_ifs at h with hz hbig
      obtain ⟨s1, h1, h2⟩ := bind_eq_ret _ _ _ h
      cases h2
      refine ⟨bs, by omega, by omega, rfl, ?_⟩
      have hk := read_frame_of_reply_frame _ _ (server_got_replies_keeps _ _ _ h1)
      exact hk

theorem server_send_loop_keeps (ws : List WriteResult) :
    ∀ (s : Client) (z : List Nat) (s' : Client),
      server_send_loop s ws z = .ret s' → send_frame s' = send_frame s := by
  induction ws with
  | nil =>
    intro s z s' h
    cases z with
    | nil => simp only [server_send_loop] at h; cases h; rfl
    | cons b z => simp only [server_send_loop] at h; cases h
  | cons w ws ih =>
    intro s z s' h
    cases z with
    | nil => simp only [server_send_loop] at h; cases h; rfl
    | cons b z =>
      cases w with
      | wrote cnt =>
        simp only [server_send_loop] at h
        split_ifs at h
        have := ih _ _ _ h
        exact this
      | eagain =>
        simp only [server_send_loop] at h
        cases hw : wait_for_write s.selects with
        | ret sels =>
          rw [hw] at h
          have h2 := ih { s with selects := sels } (b :: z) s' h
          exact h2
        | exit st => rw [hw] at h; cases h
        | die => rw [hw] at h; cases h
        | hang => rw [hw] at h; cases h
        | undefined => rw [hw] at h; cases h
      | eintr =>
        simp only [server_send_loop] at h
        exact ih s (b :: z) s' h
      | error => simp only [server_send_loop] at h; cases h

/-- What a returning `submit_server_command` has done. -/
theorem submit_server_command_ret (s s' : Client) (cmd : List Nat)
    (h : submit_server_command s cmd = .ret s') :
    s'.wire = s.wire ++ cmd ++ [10] ∧ s'.busy = 1 ∧ s'.num_lines = 2 ∧
      send_frame s' = send_frame { s with busy := 1, num_lines := 2 } := by
  unfold submit_server_command server_send at h
  have hw := server_send_loop_wire _ _ _ _ h
  have hk := server_send_loop_keeps _ _ _ _ h
  refine ⟨by rw [hw, List.append_assoc], ?_, ?_, hk⟩
  · exact congrArg Client.busy hk
  · exact congrArg Client.num_lines hk

theorem server_send_one_write (t : Client) (cmd : List Nat)
    (ht : t.writes = [.wrote (cmd.length + 1)]) : ∃ t', server_send t cmd = .ret t' := by
  unfold server_send
  rw [ht]
  cases hz : cmd ++ [10] with
  | nil => simp at hz
  | cons b z =>
    have hlen : (b :: z).length = cmd.length + 1 := by rw [← hz]; simp
    simp only [server_send_loop]
    rw [if_neg (by omega), List.drop_of_length_le (by omega)]
    exact ⟨_, rfl⟩

/-! ## Commands typed at the terminal -/

/-- C11 as the specification states it fails.  The command `helpme` is not
`help`, and it is intercepted all the same: the hint is printed, nothing is
sent and `busy` stays clear; `exited` ends the process with status 0. -/
theorem internal_command_by_prefix :
    submit_command ⟨some, .ret⟩ { Client.initial with busy := 0 } (bytes "helpme") =
        .ret { Client.initial with
          busy := 0, stdout := bytes "Press \x60?\x27 for context sensitive help.\n" } ∧
      submit_command ⟨some, .ret⟩ { Client.initial with busy := 0 } (bytes "exited") =
        .exit 0 ∧
      ¬ (∀ (ext : Externals) (s : Client) (raw cmd : List Nat),
          ext.cmd_expand raw = some cmd →
          cmd ≠ bytes "exit" → cmd ≠ bytes "quit" → cmd ≠ bytes "help" →
          ∀ s', submit_command ext s raw = .ret s' →
            s'.busy = 1 ∧ s'.wire = s.wire ++ cmd ++ [10]) := by
  have hrun : submit_command ⟨some, .ret⟩ { Client.initial with busy := 0 } (bytes "helpme") =
      .ret { Client.initial with
        busy := 0, stdout := bytes "Press \x60?\x27 for context sensitive help.\n" } := by
    decide
  refine ⟨hrun, by decide, ?_⟩
  intro h
  have h1 := h ⟨some, .ret⟩ { Client.initial with busy := 0 } (bytes "helpme") (bytes "helpme")
    rfl (by decide) (by decide) (by decide) _ hrun
  exact absurd h1.1 (by decide)

/-- C11, amended.  `submit_command` intercepts the expanded command exactly when
its first four characters are `exit` or `quit` (the process exits with status 0
and nothing is sent) or `help` (the hint is printed, `busy` and everything else
is unchanged, nothing is sent).  Every other command goes to `server_send` with
`busy` set to 1 and `num_lines` to 2, and when that returns the command and a
newline have been written to the socket. -/
theorem submit_command_cases (ext : Externals) (s : Client) (raw cmd : List Nat)
    (he : ext.cmd_expand raw = some cmd) :
    (cmd.take 4 = bytes "exit" ∨ cmd.take 4 = bytes "quit" →
        submit_command ext s raw = .exit 0) ∧
      (cmd.take 4 = bytes "help" →
        submit_command ext s raw =
          .ret { s with
            stdout := s.stdout ++ bytes "Press \x60?\x27 for context sensitive help.\n" }) ∧
      (cmd.take 4 ≠ bytes "exit" → cmd.take 4 ≠ bytes "quit" → cmd.take 4 ≠ bytes "help" →
        submit_command ext s raw = server_send { s with busy := 1, num_lines := 2 } cmd ∧
          (∀ s', submit_command ext s raw = .ret s' →
            s'.wire = s.wire ++ cmd ++ [10] ∧ s'.busy = 1 ∧ s'.num_lines = 2) ∧
          (s.writes = [.wrote (cmd.length + 1)] → ∃ s', submit_command ext s raw = .ret s')) := by
  refine ⟨?_, ?_, ?_⟩
  · intro h
    simp only [submit_command, he, handle_internal_command, if_pos h, Outcome.bind]
  · intro h
    have hne : ¬ (cmd.take 4 = bytes "exit" ∨ cmd.take 4 = bytes "quit") := by
      rw [h]; decide
    simp only [submit_command, he, handle_internal_command, if_neg hne, if_pos h, Outcome.bind]
    rfl
  · intro h1 h2 h3
    have hne : ¬ (cmd.take 4 = bytes "exit" ∨ cmd.take 4 = bytes "quit") := by
      rintro (h | h)
      · exact h1 h
      · exact h2 h
    have heq : submit_command ext s raw = submit_server_command s cmd := by
      simp only [submit_command, he, handle_internal_command, if_neg hne, if_neg h3,
        Outcome.bind, if_true]
    refine ⟨heq, ?_, ?_⟩
    · intro s' hs'
      rw [heq] at hs'
      obtain ⟨hw, hb, hn, -⟩ := submit_server_command_ret s s' cmd hs'
      exact ⟨hw, hb, hn⟩
    · intro hw
      rw [heq]
      exact server_send_one_write { s with busy := 1, num_lines := 2 } cmd hw

/-- The amended C11 at the commands `quit` and `show status`, typed while idle. -/
theorem submit_command_cases_witness :
    submit_command ⟨some, .ret⟩ { Client.initial with busy := 0 } (bytes "quit") = .exit 0 ∧
      submit_command ⟨some, .ret⟩ { Client.initial with busy := 0, writes := [.wrote 12] }
          (bytes "show status") =
        .ret { Client.initial with busy := 1, num_lines := 2, wire := bytes "show status\n" } := by
  refine ⟨?_, by decide⟩
  exact (submit_command_cases ⟨some, .ret⟩ { Client.initial with busy := 0 } (bytes "quit")
    (bytes "quit") rfl).1 (Or.inr (by decide))

/-- C12 as the specification states it fails.  When the expansion of a command
typed at the terminal produces nothing, `submit_command` returns: the process
does not exit, the state is what it was. -/
theorem empty_expansion_returns :
    submit_command ⟨fun _ => none, .ret⟩ { Client.initial with busy := 0 } (bytes "sh ow") =
        .ret { Client.initial with busy := 0 } ∧
      ¬ (∀ (ext : Externals) (s : Client) (raw : List Nat), ext.cmd_expand raw = none →
          submit_command ext s raw = .exit 0) := by
  refine ⟨by decide, ?_⟩
  intro h
  have h1 := h ⟨fun _ => none, .ret⟩ Client.initial [] rfl
  revert h1
  decide

/-- C12, amended.  When the expansion of a command produces nothing:
`submit_init_command` ends the process with status 0 and sends nothing, and so
does the startup sequence when it reaches the batch command; `submit_command`
returns with the state unchanged, so nothing is sent and the process goes on. -/
theorem empty_expansion (ext : Externals) (s : Client) (raw : List Nat)
    (he : ext.cmd_expand raw = none) :
    submit_init_command ext s raw = .exit 0 ∧
      submit_command ext s raw = .ret s ∧
      (s.init ≠ 0 → s.busy = 0 → s.restricted = 0 → s.init_cmd = some raw →
        select_loop_head ext s = .exit 0) := by
  refine ⟨?_, ?_, ?_⟩
  · simp only [submit_init_command, he]
  · simp only [submit_command, he]
  · intro hi hb hr hc
    have hr2 : ¬ s.restricted ≠ 0 := fun h => h hr
    simp only [select_loop_head, if_pos (And.intro hi hb), init_commands, if_neg hr2, hc,
      submit_init_command, he, Outcome.bind]

/-- The amended C12 with an expansion that never produces anything. -/
theorem empty_expansion_witness :
    submit_init_command ⟨fun _ => none, .ret⟩ Client.initial (bytes "sh ow") = .exit 0 ∧
      submit_command ⟨fun _ => none, .ret⟩ Client.initial (bytes "sh ow") =
        .ret Client.initial :=
  ⟨(empty_expansion ⟨fun _ => none, .ret⟩ Client.initial (bytes "sh ow") rfl).1,
    (empty_expansion ⟨fun _ => none, .ret⟩ Client.initial (bytes "sh ow") rfl).2.1⟩

/-! ## The pager -/

theorem tdiv_round_up (len c : Int) (hl : 0 < len) (hc : 0 < c) :
    Int.tdiv (len + c - 1) c = ⌈(len : ℚ) / (c : ℚ)⌉ := by
  rw [Int.tdiv_eq_ediv (by omega) (by omega)]
  symm
  rw [Int.ceil_eq_iff]
  have hcq : (0 : ℚ) < (c : ℚ) := by exact_mod_cast hc
  have h1 : (len + c - 1) / c * c ≤ len + c - 1 := Int.ediv_mul_le _ (by omega)
  have h2 : len + c - 1 < ((len + c - 1) / c + 1) * c := Int.lt_ediv_add_one_mul_self _ hc
  constructor
  · rw [lt_div_iff₀ hcq]
    have h3 : ((len + c - 1) / c - 1) * c < len := by nlinarith
    exact_mod_cast h3
  · rw [div_le_iff₀ hcq]
    have h3 : len ≤ (len + c - 1) / c * c := by nlinarith
    exact_mod_cast h3

theorem PRINTF_clear (s : Client) (t : List Nat) (h : s.skip_input = 0) :
    PRINTF s t = ({ s with stdout := s.stdout ++ t }, (t.length : Int)) := by
  simp [PRINTF, h]

/-- With `skip_input` clear, `server_got_reply` prints the text of the line and
records its code, then either returns (terminal line) or runs the pager. -/
theorem server_got_reply_printed (s : Client) (x : List Nat) (hs : s.skip_input = 0) :
    server_got_reply s x =
      if classify x = .coded_terminal then
        .ret { printed_state s x with busy := 0, skip_input := 0 }
      else pager (printed_state s x) (reply_text s x).length := by
  rw [server_got_reply_eq_handle]
  cases hk : classify x with
  | async =>
    simp only [handle, PRINTF_clear s _ hs, printed_state, reply_text, hk]
    simp
  | continuation =>
    simp only [handle, PRINTF_clear s _ hs, printed_state, reply_text, hk]
    simp
  | coded_terminal =>
    simp only [handle, PRINTF_clear s _ hs, printed_state, reply_text, hk]
    by_cases hc : (reply_code x).getD 0 = 0
    · simp [hc]
    · simp [hc]
  | coded_nonterminal =>
    simp only [handle, PRINTF_clear s _ hs, printed_state, reply_text, hk]
    by_cases hc : (reply_code x).getD 0 = 0
    · simp [hc]
    · simp [hc]
  | malformed =>
    simp only [handle, PRINTF_clear s _ hs, printed_state, reply_text, hk]
    simp

theorem server_got_reply_quiet (s s' : Client) (x : List Nat) (hs : s.skip_input ≠ 0)
    (h : server_got_reply s x = .ret s') : s'.stdout = s.stdout := by
  rw [server_got_reply_eq_handle] at h
  have hq := coded_print_quiet s ((reply_code x).getD 0)
    ((if s.verbose ≠ 0 then x else x.drop 5) ++ [10]) (Or.inr hs)
  cases hk : classify x with
  | async =>
    rw [hk] at h
    simp only [handle, PRINTF_skip s _ hs, pager_zero] at h
    cases h; rfl
  | continuation =>
    rw [hk] at h
    simp only [handle, PRINTF_skip s _ hs, pager_zero] at h
    cases h; rfl
  | coded_terminal =>
    rw [hk] at h
    simp only [handle, hq] at h
    cases h; rfl
  | coded_nonterminal =>
    rw [hk] at h
    simp only [handle, hq, pager_zero] at h
    cases h; rfl
  | malformed =>
    rw [hk] at h
    simp only [handle, PRINTF_skip s _ hs, pager_zero] at h
    cases h; rfl

theorem PRINTF_num_lines (s : Client) (t : List Nat) :
    (PRINTF s t).1.num_lines = s.num_lines := by
  unfold PRINTF
  split_ifs <;> rfl

/-- C13 as the specification states it fails.  In an interactive busy session
past the initial sequence, with `skip_input` clear and 80 columns, the terminal
line `0013 second` prints `second` and a newline (7 characters), and the pager
counter stays at 2: the terminal branch returns before the counter is touched. -/
theorem terminal_line_not_counted :
    server_got_reply
        { Client.initial with
          interactive := 1, init := 0, term_cls := 80, term_lns := 25, num_lines := 2 }
        (bytes "0013 second") =
        .ret { Client.initial with
          interactive := 1, init := 0, term_cls := 80, term_lns := 25, num_lines := 2,
          busy := 0, last_code := 13, stdout := bytes "second\n" } ∧
      ¬ (∀ (s s' : Client) (x : List Nat), s.interactive ≠ 0 → s.busy ≠ 0 →
          s.skip_input = 0 → s.init = 0 → s.term_cls > 0 → (reply_text s x).length > 0 →
          s.num_lines +
              ⌈(((reply_text s x).length : Int) : ℚ) / (s.term_cls : ℚ)⌉ < s.term_lns →
          server_got_reply s x = .ret s' →
          s'.num_lines =
            s.num_lines + ⌈(((reply_text s x).length : Int) : ℚ) / (s.term_cls : ℚ)⌉) := by
  have hrun : server_got_reply
      { Client.initial with
        interactive := 1, init := 0, term_cls := 80, term_lns := 25, num_lines := 2 }
      (bytes "0013 second") =
      .ret { Client.initial with
        interactive := 1, init := 0, term_cls := 80, term_lns := 25, num_lines := 2,
        busy := 0, last_code := 13, stdout := bytes "second\n" } := by decide
  refine ⟨hrun, ?_⟩
  intro h
  have hceil := tdiv_round_up
    (((reply_text { Client.initial with
        interactive := 1, init := 0, term_cls := 80, term_lns := 25, num_lines := 2 }
      (bytes "0013 second")).length : Int)) 80 (by decide) (by decide)
  have h1 := h _ _ (bytes "0013 second") (by decide) (by decide) (by decide) (by decide)
    (by decide) (by decide) (by
      show (2 : Int) + ⌈(((reply_text { Client.initial with
        interactive := 1, init := 0, term_cls := 80, term_lns := 25, num_lines := 2 }
        (bytes "0013 second")).length : Int) : ℚ) / ((80 : Int) : ℚ)⌉ < 25
      rw [← hceil]; decide) hrun
  have h2 : (2 : Int) = 2 + ⌈(((reply_text { Client.initial with
        interactive := 1, init := 0, term_cls := 80, term_lns := 25, num_lines := 2 }
        (bytes "0013 second")).length : Int) : ℚ) / ((80 : Int) : ℚ)⌉ := h1
  rw [← hceil] at h2
  revert h2
  decide

/-- C13, amended.  For every line other than the terminal line of a reply,
printed while `interactive && busy && !skip_input && !init` with a printed
length `len > 0` and `term_cls > 0`: `num_lines` is increased by the ceiling of
`len / term_cls`, and `more` is entered exactly when the increased counter is at
least `term_lns`.  The terminal line of a reply leaves `num_lines` as it was. -/
theorem pager_counts_screen_lines (s : Client) (x : List Nat)
    (hi : s.interactive ≠ 0) (hb : s.busy ≠ 0) (hs : s.skip_input = 0) (hn : s.init = 0)
    (hc : s.term_cls > 0) (hk : classify x ≠ .coded_terminal)
    (hlen : (reply_text s x).length > 0) :
    Int.tdiv (((reply_text s x).length : Int) + s.term_cls - 1) s.term_cls =
        ⌈(((reply_text s x).length : Int) : ℚ) / (s.term_cls : ℚ)⌉ ∧
      server_got_reply s x =
        (if s.num_lines + ⌈(((reply_text s x).length : Int) : ℚ) / (s.term_cls : ℚ)⌉ ≥
            s.term_lns then
          more { printed_state s x with
            num_lines :=
              s.num_lines + ⌈(((reply_text s x).length : Int) : ℚ) / (s.term_cls : ℚ)⌉ }
        else
          .ret { printed_state s x with
            num_lines :=
              s.num_lines + ⌈(((reply_text s x).length : Int) : ℚ) / (s.term_cls : ℚ)⌉ }) ∧
      (∀ (t : Client) (y : List Nat), classify y = .coded_terminal →
        ∃ t', server_got_reply t y = .ret t' ∧ t'.num_lines = t.num_lines) := by
  have hpos : ((reply_text s x).length : Int) > 0 := by exact_mod_cast hlen
  have hceil := tdiv_round_up ((reply_text s x).length : Int) s.term_cls hpos hc
  refine ⟨hceil, ?_, ?_⟩
  · rw [server_got_reply_printed s x hs, if_neg hk]
    have hcond : (printed_state s x).interactive ≠ 0 ∧ (printed_state s x).busy ≠ 0 ∧
        (printed_state s x).skip_input = 0 ∧ (printed_state s x).init = 0 ∧
        ((reply_text s x).length : Int) > 0 := ⟨hi, hb, hs, hn, hpos⟩
    have hz : ¬ s.term_cls = 0 := by omega
    have e1 : (printed_state s x).term_cls = s.term_cls := rfl
    have e2 : (printed_state s x).num_lines = s.num_lines := rfl
    have e3 : (printed_state s x).term_lns = s.term_lns := rfl
    simp only [pager, if_pos hcond, e1, e2, e3, hceil, if_neg hz]
  · intro t y hy
    obtain ⟨t', ht'⟩ : ∃ t', server_got_reply t y = .ret t' := by
      rw [server_got_reply_eq_handle, hy]; exact ⟨_, rfl⟩
    refine ⟨t', ht', ?_⟩
    rw [server_got_reply_eq_handle, hy] at ht'
    simp only [handle] at ht'
    cases ht'
    show (if (reply_code y).getD 0 ≠ 0 then
      PRINTF t ((if t.verbose ≠ 0 then y else y.drop 5) ++ [10]) else (t, 0)).1.num_lines =
      t.num_lines
    by_cases hc0 : (reply_code y).getD 0 ≠ 0
    · rw [if_pos hc0]
      exact PRINTF_num_lines t _
    · rw [if_neg hc0]

/-- The amended C13 at the line `0013-first` on an 80 column, 25 row terminal:
`first` and a newline make one screen line, the counter goes from 2 to 3 and the
pager does not pause. -/
theorem pager_counts_screen_lines_witness :
    server_got_reply
        { Client.initial with
          interactive := 1, init := 0, term_cls := 80, term_lns := 25, num_lines := 2 }
        (bytes "0013-first") =
      .ret { Client.initial with
        interactive := 1, init := 0, term_cls := 80, term_lns := 25, num_lines := 3,
        last_code := 13, stdout := bytes "first\n" } := by
  obtain ⟨hceil, hrun, -⟩ := pager_counts_screen_lines
    { Client.initial with
      interactive := 1, init := 0, term_cls := 80, term_lns := 25, num_lines := 2 }
    (bytes "0013-first") (by decide) (by decide) (by decide) (by decide) (by decide)
    (by decide) (by decide)
  rw [hrun, ← hceil]
  decide

theorem exists_first_resume_key (ks : List Int) (h : ∃ k ∈ ks, resume_key k) :
    ∃ pre k rest, ks = pre ++ k :: rest ∧ (∀ j ∈ pre, ¬ resume_key j) ∧ resume_key k := by
  induction ks with
  | nil => simp at h
  | cons a ks ih =>
    by_cases ha : resume_key a
    · exact ⟨[], a, ks, rfl, fun j hj => absurd hj (List.not_mem_nil j), ha⟩
    · obtain ⟨k, hk, hr⟩ := h
      have hk2 : k ∈ ks := by
        rcases List.mem_cons.1 hk with e | e
        · exact absurd (e ▸ hr) ha
        · exact e
      obtain ⟨pre, k', rest, e, hp, hr'⟩ := ih ⟨k, hk2, hr⟩
      refine ⟨a :: pre, k', rest, by rw [e]; rfl, ?_, hr'⟩
      intro j hj
      rcases List.mem_cons.1 hj with e2 | e2
      · rw [e2]; exact ha
      · exact hp j e2

theorem more_redo_skips (pre : List Int) (s : Client) (k : Int) (rest : List Int)
    (hp : ∀ j ∈ pre, ¬ resume_key j) :
    more_redo s (pre ++ k :: rest) = more_redo s (k :: rest) := by
  induction pre with
  | nil => rfl
  | cons a pre ih =>
    have ha : ¬ resume_key a := hp a (List.mem_cons_self a pre)
    have h1 : ¬ a = 32 := fun e => ha (Or.inl e)
    have h2 : ¬ (a = 10 ∨ a = 13) := by
      rintro (e | e)
      · exact ha (Or.inr (Or.inl e))
      · exact ha (Or.inr (Or.inr (Or.inl e)))
    have h3 : ¬ a = 113 := fun e => ha (Or.inr (Or.inr (Or.inr e)))
    rw [List.cons_append]
    conv => lhs; unfold more_redo
    rw [if_neg h1, if_neg h2, if_neg h3]
    exact ih (fun j hj => hp j (List.mem_cons_of_mem a hj))

/-- C14.  When the coming keys contain a space, an enter, a return or a `q`,
`more` reads the keys up to and including the first of these, whatever the
keys before it, and returns: with `num_lines` 2 after a space, `num_lines` one
less after enter or return, `skip_input` 1 after `q`, and the other of the
two as it was. -/
theorem more_resumes (s : Client) (h : ∃ k ∈ s.keys, resume_key k) :
    ∃ pre k rest s', s.keys = pre ++ k :: rest ∧ (∀ j ∈ pre, ¬ resume_key j) ∧
      resume_key k ∧ more s = .ret s' ∧ s'.keys = rest ∧
      (k = 32 → s'.num_lines = 2 ∧ s'.skip_input = s.skip_input) ∧
      (k = 10 ∨ k = 13 → s'.num_lines = s.num_lines - 1 ∧ s'.skip_input = s.skip_input) ∧
      (k = 113 → s'.skip_input = 1 ∧ s'.num_lines = s.num_lines) := by
  obtain ⟨pre, k, rest, e, hp, hk⟩ := exists_first_resume_key s.keys h
  have hredo : ∀ t : Client, more_redo t s.keys = more_redo t (k :: rest) := by
    intro t
    rw [e]
    exact more_redo_skips pre t k rest hp
  have hmore : more s = (more_redo { s with stdout := s.stdout ++ bytes "--More--\r" }
      (k :: rest)).bind fun s2 => .ret { s2 with stdout := s2.stdout ++ bytes "        \r" } := by
    unfold more
    simp only
    rw [hredo]
  by_cases h1 : k = 32
  · have hm : more s = .ret { s with
        stdout := s.stdout ++ bytes "--More--\r" ++ bytes "        \r",
        num_lines := 2, keys := rest } := by
      rw [hmore]
      simp only [more_redo, if_pos h1, Outcome.bind]
    refine ⟨pre, k, rest, _, e, hp, hk, hm, rfl, fun _ => ⟨rfl, rfl⟩, ?_, ?_⟩
    · rintro (e2 | e2) <;> omega
    · intro e2; omega
  · by_cases h2 : k = 10 ∨ k = 13
    · have hm : more s = .ret { s with
          stdout := s.stdout ++ bytes "--More--\r" ++ bytes "        \r",
          num_lines := s.num_lines - 1, keys := rest } := by
        rw [hmore]
        simp only [more_redo, if_neg h1, if_pos h2, Outcome.bind]
      refine ⟨pre, k, rest, _, e, hp, hk, hm, rfl, fun e2 => absurd e2 h1,
        fun _ => ⟨rfl, rfl⟩, ?_⟩
      intro e2
      rcases h2 with e3 | e3 <;> omega
    · have h3 : k = 113 := by
        rcases hk with e2 | e2 | e2 | e2
        · exact absurd e2 h1
        · exact absurd (Or.inl e2) h2
        · exact absurd (Or.inr e2) h2
        · exact e2
      have hm : more s = .ret { s with
          stdout := s.stdout ++ bytes "--More--\r" ++ bytes "        \r",
          skip_input := 1, keys := rest } := by
        rw [hmore]
        simp only [more_redo, if_neg h1, if_neg h2, if_pos h3, Outcome.bind]
      exact ⟨pre, k, rest, _, e, hp, hk, hm, rfl, fun e2 => absurd e2 h1,
        fun e2 => absurd e2 h2, fun _ => ⟨rfl, rfl⟩⟩

/-- C14 on the keys `a`, `EOF`, `q`, space: `a` and `EOF` are skipped, `q` sets
`skip_input`, the space is left for later. -/
theorem more_resumes_witness :
    ∃ pre k rest s', ({ Client.initial with keys := [97, -1, 113, 32] } : Client).keys =
        pre ++ k :: rest ∧ (∀ j ∈ pre, ¬ resume_key j) ∧
      resume_key k ∧ more { Client.initial with keys := [97, -1, 113, 32] } = .ret s' ∧
      s'.keys = rest ∧
      (k = 32 → s'.num_lines = 2 ∧
        s'.skip_input = ({ Client.initial with keys := [97, -1, 113, 32] } : Client).skip_input) ∧
      (k = 10 ∨ k = 13 →
        s'.num_lines =
            ({ Client.initial with keys := [97, -1, 113, 32] } : Client).num_lines - 1 ∧
          s'.skip_input =
            ({ Client.initial with keys := [97, -1, 113, 32] } : Client).skip_input) ∧
      (k = 113 → s'.skip_input = 1 ∧
        s'.num_lines = ({ Client.initial with keys := [97, -1, 113, 32] } : Client).num_lines) :=
  more_resumes { Client.initial with keys := [97, -1, 113, 32] }
    ⟨113, by decide, Or.inr (Or.inr (Or.inr rfl))⟩

/-- C16 as the specification states it fails.  While `skip_input` is set (the
user answered `q` to the pager) an async line and a malformed line are not
printed: `PRINTF` writes nothing for any branch. -/
theorem async_line_skipped :
    server_got_reply { Client.initial with skip_input := 1 } (bytes "+hello") =
        .ret { Client.initial with skip_input := 1 } ∧
      server_got_reply { Client.initial with skip_input := 1 } (bytes "garbage") =
        .ret { Client.initial with skip_input := 1 } ∧
      ¬ (∀ (s s' : Client) (t : List Nat),
          server_got_reply s (43 :: t) = .ret s' → s'.stdout ≠ s.stdout) := by
  have hrun : server_got_reply { Client.initial with skip_input := 1 } (bytes "+hello") =
      .ret { Client.initial with skip_input := 1 } := by decide
  refine ⟨hrun, by decide, ?_⟩
  intro h
  exact h _ _ _ hrun rfl

/-- C16, amended.  While `skip_input` is clear, `server_got_reply` appends to
standard output the text of the line and then returns (terminal line) or runs
the pager.  The text is: for a coded line with non-zero code, the payload after
the fifth character when `verbose` is 0 and the whole line when it is set, with
a newline; nothing for code 0; `>>> t` and a newline for an async line `+t`;
`??? <line>` and a newline for a malformed line.  While `skip_input` is set
nothing is printed for any line. -/
theorem reply_text_printed (s : Client) (x : List Nat) (hs : s.skip_input = 0) :
    server_got_reply s x =
        (if classify x = .coded_terminal then
          .ret { printed_state s x with busy := 0, skip_input := 0 }
        else pager (printed_state s x) (reply_text s x).length) ∧
      (printed_state s x).stdout = s.stdout ++ reply_text s x ∧
      (∀ c, classify x = .coded_terminal ∨ classify x = .coded_nonterminal →
        reply_code x = some c →
          (c ≠ 0 → s.verbose = 0 → reply_text s x = x.drop 5 ++ [10]) ∧
          (c ≠ 0 → s.verbose ≠ 0 → reply_text s x = x ++ [10]) ∧
          (c = 0 → reply_text s x = [])) ∧
      (classify x = .async → reply_text s x = bytes ">>> " ++ x.drop 1 ++ [10]) ∧
      (classify x = .malformed → reply_text s x = bytes "??? <" ++ x ++ bytes ">" ++ [10]) ∧
      (∀ (t t' : Client) (y : List Nat), t.skip_input ≠ 0 →
        server_got_reply t y = .ret t' → t'.stdout = t.stdout) := by
  refine ⟨server_got_reply_printed s x hs, rfl, ?_, ?_, ?_, ?_⟩
  · intro c hk hc
    have htext : reply_text s x =
        if c ≠ 0 then (if s.verbose ≠ 0 then x else x.drop 5) ++ [10] else [] := by
      rcases hk with hk | hk <;> simp only [reply_text, hk, hc, Option.getD_some]
    refine ⟨fun h0 hv => ?_, fun h0 hv => ?_, fun h0 => ?_⟩
    · rw [htext, if_pos h0, if_neg (fun h => h hv)]
    · rw [htext, if_pos h0, if_pos hv]
    · rw [htext, if_neg (fun h => h h0)]
  · intro hk
    simp only [reply_text, hk]
  · intro hk
    simp only [reply_text, hk]
  · intro t t' y ht hr
    exact server_got_reply_quiet t t' y ht hr

/-- The amended C16 at `0013-first` with `verbose` clear, where `first` and a
newline are printed. -/
theorem reply_text_printed_witness :
    server_got_reply Client.initial (bytes "0013-first") =
      .ret { Client.initial with last_code := 13, stdout := bytes "first\n" } := by
  rw [(reply_text_printed Client.initial (bytes "0013-first") rfl).1]
  decide

/-! ## The pagination scenario -/

theorem tdiv_one_line (len c : Int) (h1 : 0 < len) (h2 : len ≤ c) :
    Int.tdiv (len + c - 1) c = 1 := by
  rw [Int.tdiv_eq_ediv (by omega) (by omega)]
  have hc : 0 < c := by omega
  have e : len + c - 1 = (len - 1) + c * 1 := by ring
  rw [e, Int.add_mul_ediv_left _ _ (by omega), Int.ediv_eq_zero_of_lt (by omega) (by omega)]
  rfl

theorem same_session_refl (s : Client) : same_session s s := ⟨rfl, rfl, rfl⟩

theorem same_session_trans (a b c : Client) (h1 : same_session a b) (h2 : same_session b c) :
    same_session a c :=
  ⟨h2.1.trans h1.1, h2.2.1.trans h1.2.1, h2.2.2.trans h1.2.2⟩

theorem paging_of_same_session (s s' : Client) (h : same_session s s') (hp : paging s) :
    paging s' := by
  obtain ⟨hf, hb, hk⟩ := h
  obtain ⟨p1, p2, p3, p4, p5⟩ := hp
  have e1 : s'.interactive = s.interactive := by
    have h0 := congrArg Client.interactive hf
    exact h0
  have e2 : s'.init = s.init := by
    have h0 := congrArg Client.init hf
    exact h0
  have e3 : s'.term_cls = s.term_cls := by
    have h0 := congrArg Client.term_cls hf
    exact h0
  exact ⟨by rw [e1]; exact p1, by rw [hb]; exact p2, by rw [hk]; exact p3,
    by rw [e2]; exact p4, by rw [e3]; exact p5⟩

theorem one_screen_line_of_same_session (s s' : Client) (x : List Nat)
    (h : same_session s s') (hx : one_screen_line s x) : one_screen_line s' x := by
  have e1 : s'.verbose = s.verbose := by
    have h0 := congrArg Client.verbose h.1
    exact h0
  have e3 : s'.term_cls = s.term_cls := by
    have h0 := congrArg Client.term_cls h.1
    exact h0
  have et : reply_text s' x = reply_text s x := by
    unfold reply_text
    rw [e1]
  unfold one_screen_line
  rw [et, e3]
  exact hx

theorem term_lns_of_same_session (s s' : Client) (h : same_session s s') :
    s'.term_lns = s.term_lns := by
  have h0 := congrArg Client.term_lns h.1
  exact h0

/-- One line of one screen line, with the pager armed. -/
theorem one_line_step (s : Client) (x : List Nat) (hp : paging s) (hx : one_screen_line s x) :
    server_got_reply s x =
      if s.num_lines + 1 ≥ s.term_lns then
        more { printed_state s x with num_lines := s.num_lines + 1 }
      else .ret { printed_state s x with num_lines := s.num_lines + 1 } := by
  obtain ⟨hi, hb, hs, hn, hc⟩ := hp
  obtain ⟨hk, h1, h2⟩ := hx
  have hpos : ((reply_text s x).length : Int) > 0 := by exact_mod_cast h1
  rw [server_got_reply_printed s x hs, if_neg hk]
  have hcond : (printed_state s x).interactive ≠ 0 ∧ (printed_state s x).busy ≠ 0 ∧
      (printed_state s x).skip_input = 0 ∧ (printed_state s x).init = 0 ∧
      ((reply_text s x).length : Int) > 0 := ⟨hi, hb, hs, hn, hpos⟩
  have hz : ¬ s.term_cls = 0 := by omega
  have e1 : (printed_state s x).term_cls = s.term_cls := rfl
  have e2 : (printed_state s x).num_lines = s.num_lines := rfl
  have e3 : (printed_state s x).term_lns = s.term_lns := rfl
  simp only [pager, if_pos hcond, e1, e2, e3, tdiv_one_line _ _ hpos h2, if_neg hz]

theorem more_space (t : Client) (rest : List Int) (h : t.keys = 32 :: rest) :
    more t = .ret { t with
      stdout := t.stdout ++ bytes "--More--\r" ++ bytes "        \r",
      num_lines := 2, keys := rest } := by
  unfold more
  simp only [h, more_redo, if_true, Outcome.bind]

theorem more_no_key (t : Client) (h : t.keys = []) : more t = .hang := by
  unfold more
  simp only [h, more_redo, Outcome.bind]

/-- Lines that do not bring the counter to `term_lns` are printed without a
pause and without reading a key. -/
theorem run_without_pause (xs : List (List Nat)) :
    ∀ s : Client, paging s → (∀ x ∈ xs, one_screen_line s x) →
      s.num_lines + xs.length < s.term_lns →
      ∃ s', server_got_replies s xs = .ret s' ∧ same_session s s' ∧
        s'.num_lines = s.num_lines + xs.length ∧ s'.keys = s.keys := by
  induction xs with
  | nil =>
    intro s _ _ _
    exact ⟨s, rfl, same_session_refl s, by simp, rfl⟩
  | cons x xs ih =>
    intro s hp hx hn
    simp only [List.length_cons, Nat.cast_add, Nat.cast_one] at hn
    have hstep := one_line_step s x hp (hx x (List.mem_cons_self x xs))
    rw [if_neg (by omega)] at hstep
    have hss : same_session s { printed_state s x with num_lines := s.num_lines + 1 } :=
      ⟨rfl, rfl, rfl⟩
    obtain ⟨s', hr, hs', hn', hk'⟩ := ih _ (paging_of_same_session _ _ hss hp)
      (fun y hy => one_screen_line_of_same_session _ _ y hss (hx y (List.mem_cons_of_mem x hy)))
      (by
        have : ({ printed_state s x with num_lines := s.num_lines + 1 } : Client).term_lns =
          s.term_lns := rfl
        rw [this]
        show s.num_lines + 1 + (xs.length : Int) < s.term_lns
        omega)
    refine ⟨s', ?_, same_session_trans _ _ _ hss hs', ?_, hk'⟩
    · simp only [server_got_replies, hstep, Outcome.bind]
      exact hr
    · rw [hn']
      show s.num_lines + 1 + (xs.length : Int) = s.num_lines + ((x :: xs).length : Int)
      simp only [List.length_cons, Nat.cast_add, Nat.cast_one]
      omega

/-- The line that brings the counter to `term_lns` pauses: with no key the
client waits, with a space it goes on from a counter of 2. -/
theorem run_then_pause (xs : List (List Nat)) (x : List Nat) (s : Client) (hp : paging s)
    (hxs : ∀ y ∈ xs, one_screen_line s y) (hx : one_screen_line s x)
    (hn : s.num_lines + xs.length + 1 = s.term_lns) :
    (s.keys = [] → server_got_replies s (xs ++ [x]) = .hang) ∧
      (∀ rest, s.keys = 32 :: rest →
        ∃ s', server_got_replies s (xs ++ [x]) = .ret s' ∧ same_session s s' ∧
          s'.num_lines = 2 ∧ s'.keys = rest) := by
  obtain ⟨s1, hr, hs1, hn1, hk1⟩ := run_without_pause xs s hp hxs (by omega)
  have hp1 := paging_of_same_session _ _ hs1 hp
  have hx1 := one_screen_line_of_same_session _ _ x hs1 hx
  have hstep := one_line_step s1 x hp1 hx1
  rw [if_pos (by rw [term_lns_of_same_session _ _ hs1, hn1]; omega)] at hstep
  have hrun : server_got_replies s (xs ++ [x]) =
      more { printed_state s1 x with num_lines := s1.num_lines + 1 } := by
    rw [server_got_replies_append, hr]
    simp only [Outcome.bind, server_got_replies, hstep]
    cases more { printed_state s1 x with num_lines := s1.num_lines + 1 } <;> rfl
  constructor
  · intro hk
    rw [hrun]
    exact more_no_key _ (by show s1.keys = []; rw [hk1]; exact hk)
  · intro rest hk
    rw [hrun, more_space _ rest (by show s1.keys = 32 :: rest; rw [hk1]; exact hk)]
    refine ⟨_, rfl, ?_, rfl, rfl⟩
    exact same_session_trans _ _ _ hs1 ⟨rfl, rfl, rfl⟩

/-- C15 as the specification states it fails.  On a 5 row terminal, from the
baseline of 2, with one space typed: the third line pauses and the space is
read; the fourth and fifth lines print without a pause (counter 3, then 4); the
sixth line brings the counter to 5 again and the pager waits for a second key,
so seven or nine lines are never printed on that single space. -/
theorem pause_again_at_sixth_line :
    ((server_got_replies { pagination_start with keys := [32] }
          (List.replicate 3 (bytes " a"))).bind fun s => .ret (s.num_lines, s.keys)) =
        .ret (2, []) ∧
      ((server_got_replies { pagination_start with keys := [32] }
          (List.replicate 5 (bytes " a"))).bind fun s => .ret (s.num_lines, s.keys)) =
        .ret (4, []) ∧
      server_got_replies { pagination_start with keys := [32] }
          (List.replicate 6 (bytes " a")) = .hang ∧
      server_got_replies { pagination_start with keys := [32] }
          (List.replicate 7 (bytes " a")) = .hang ∧
      ¬ (∃ s', server_got_replies { pagination_start with keys := [32] }
          (List.replicate 9 (bytes " a")) = .ret s') := by
  refine ⟨by decide, by decide, by decide, by decide, ?_⟩
  rintro ⟨s', h⟩
  have h9 : server_got_replies { pagination_start with keys := [32] }
      (List.replicate 9 (bytes " a")) = .hang := by decide
  rw [h9] at h
  cases h

/-- C15, amended.  With `term_lns = 5`, the counter at its baseline of 2 and
lines that each fill one screen line: the first two lines print without a
pause; the third brings the counter to 5 and pauses (with no key typed the
client waits there); after a space the counter is 2; the fourth and fifth lines
print without a pause (counter 4); and the sixth line pauses again. -/
theorem pagination_scenario (s : Client) (x1 x2 x3 x4 x5 x6 : List Nat) (hp : paging s)
    (hl : s.term_lns = 5) (hn : s.num_lines = 2)
    (hx : ∀ x ∈ [x1, x2, x3, x4, x5, x6], one_screen_line s x) :
    (∃ s', server_got_replies s [x1, x2] = .ret s' ∧ s'.num_lines = 4 ∧ s'.keys = s.keys) ∧
      (s.keys = [] → server_got_replies s [x1, x2, x3] = .hang) ∧
      (∀ rest, s.keys = 32 :: rest →
        (∃ s', server_got_replies s [x1, x2, x3] = .ret s' ∧ s'.num_lines = 2 ∧
          s'.keys = rest) ∧
        (∃ s', server_got_replies s [x1, x2, x3, x4, x5] = .ret s' ∧ s'.num_lines = 4 ∧
          s'.keys = rest) ∧
        (rest = [] → server_got_replies s [x1, x2, x3, x4, x5, x6] = .hang) ∧
        (∀ rest2, rest = 32 :: rest2 →
          ∃ s', server_got_replies s [x1, x2, x3, x4, x5, x6] = .ret s' ∧
            s'.num_lines = 2 ∧ s'.keys = rest2)) := by
  have h1 := hx x1 (by simp)
  have h2 := hx x2 (by simp)
  have h3 := hx x3 (by simp)
  have h4 := hx x4 (by simp)
  have h5 := hx x5 (by simp)
  have h6 := hx x6 (by simp)
  have h12 : ∀ y ∈ [x1, x2], one_screen_line s y := by
    intro y hy
    simp only [List.mem_cons, List.mem_singleton, List.not_mem_nil, or_false] at hy
    rcases hy with e | e <;> rw [e] <;> assumption
  refine ⟨?_, ?_, ?_⟩
  · obtain ⟨s', hr, -, hn', hk'⟩ := run_without_pause [x1, x2] s hp h12
      (by rw [hn, hl]; simp)
    refine ⟨s', hr, ?_, hk'⟩
    rw [hn', hn]; rfl
  · intro hk
    exact (run_then_pause [x1, x2] x3 s hp h12 h3 (by rw [hn, hl]; rfl)).1 hk
  · intro rest hk
    obtain ⟨s3, hr3, hs3, hn3, hk3⟩ :=
      (run_then_pause [x1, x2] x3 s hp h12 h3 (by rw [hn, hl]; rfl)).2 rest hk
    have hr3b : server_got_replies s [x1, x2, x3] = .ret s3 := hr3
    have hp3 := paging_of_same_session _ _ hs3 hp
    have hl3 : s3.term_lns = 5 := by rw [term_lns_of_same_session _ _ hs3, hl]
    have h45 : ∀ y ∈ [x4, x5], one_screen_line s3 y := by
      intro y hy
      simp only [List.mem_cons, List.mem_singleton, List.not_mem_nil, or_false] at hy
      rcases hy with e | e <;> rw [e] <;>
        exact one_screen_line_of_same_session _ _ _ hs3 (by assumption)
    have h6b := one_screen_line_of_same_session _ _ x6 hs3 h6
    have e5 : server_got_replies s [x1, x2, x3, x4, x5] = server_got_replies s3 [x4, x5] := by
      have := server_got_replies_append [x1, x2, x3] [x4, x5] s
      rw [hr3b] at this
      exact this
    have e6 : server_got_replies s [x1, x2, x3, x4, x5, x6] =
        server_got_replies s3 ([x4, x5] ++ [x6]) := by
      have := server_got_replies_append [x1, x2, x3] [x4, x5, x6] s
      rw [hr3b] at this
      exact this
    refine ⟨⟨s3, hr3b, hn3, hk3⟩, ?_, ?_, ?_⟩
    · obtain ⟨s5, hr5, -, hn5, hk5⟩ := run_without_pause [x4, x5] s3 hp3 h45
        (by rw [hn3, hl3]; simp)
      refine ⟨s5, by rw [e5]; exact hr5, ?_, by rw [hk5, hk3]⟩
      rw [hn5, hn3]; rfl
    · intro hre
      rw [e6]
      exact (run_then_pause [x4, x5] x6 s3 hp3 h45 h6b (by rw [hn3, hl3]; rfl)).1
        (by rw [hk3]; exact hre)
    · intro rest2 hre
      obtain ⟨s6, hr6, -, hn6, hk6⟩ :=
        (run_then_pause [x4, x5] x6 s3 hp3 h45 h6b (by rw [hn3, hl3]; rfl)).2 rest2
          (by rw [hk3]; exact hre)
      exact ⟨s6, by rw [e6]; exact hr6, hn6, hk6⟩

/-- The amended C15 on six continuation lines ` a`, with one space typed. -/
theorem pagination_scenario_witness :
    (∃ s', server_got_replies { pagination_start with keys := [32] }
        [bytes " a", bytes " a", bytes " a"] = .ret s' ∧ s'.num_lines = 2 ∧ s'.keys = []) ∧
      server_got_replies { pagination_start with keys := [32] }
        [bytes " a", bytes " a", bytes " a", bytes " a", bytes " a", bytes " a"] = .hang := by
  have h := (pagination_scenario { pagination_start with keys := [32] }
    (bytes " a") (bytes " a") (bytes " a") (bytes " a") (bytes " a") (bytes " a")
    (by unfold paging; decide) (by decide) (by decide)
    (by
      intro x hx
      have e : x = bytes " a" := by
        simp only [List.mem_cons, List.mem_singleton, List.not_mem_nil, or_false, or_self] at hx
        exact hx
      rw [e]
      unfold one_screen_line
      decide)).2.2 [] rfl
  exact ⟨h.1, h.2.2.1 rfl⟩

/-! ## Startup and `select_loop` -/

/-- What a returning `init_commands` has done: sent `restrict`, or sent the
expanded batch command, or ended the initial sequence. -/
theorem init_commands_ret (ext : Externals) (s s' : Client)
    (h : init_commands ext s = .ret s') :
    (s.restricted ≠ 0 ∧ s'.wire = s.wire ++ bytes "restrict" ++ [10] ∧ s'.restricted = 0 ∧
        s'.init_cmd = s.init_cmd ∧ s'.busy = 1 ∧ s'.init = s.init ∧
        s'.term_lns = s.term_lns ∧ s'.term_cls = s.term_cls) ∨
      (s.restricted = 0 ∧
        (∃ raw cmd, s.init_cmd = some raw ∧ ext.cmd_expand raw = some cmd ∧
          s'.wire = s.wire ++ cmd ++ [10]) ∧
        s'.restricted = 0 ∧ s'.init_cmd = none ∧ s'.busy = 1 ∧ s'.init = s.init ∧
        s'.term_lns = s.term_lns ∧ s'.term_cls = s.term_cls) ∨
      (s.restricted = 0 ∧ s.init_cmd = none ∧ s.once = 0 ∧ s'.init = 0 ∧
        ∃ s1, ext.input_init s = .ret s1 ∧
          s'.term_lns = (if s1.term_lns > 0 then s1.term_lns else 25) ∧
          s'.term_cls = (if s1.term_cls > 0 then s1.term_cls else 80)) := by
  unfold init_commands at h
  by_cases hr : s.restricted ≠ 0
  · rw [if_pos hr] at h
    obtain ⟨s1, h1, h2⟩ := bind_eq_ret _ _ _ h
    cases h2
    obtain ⟨hw, hb, -, hf⟩ := submit_server_command_ret s s1 _ h1
    left
    refine ⟨hr, hw, rfl, ?_, hb, ?_, ?_, ?_⟩
    · have h0 := congrArg Client.init_cmd hf; exact h0
    · have h0 := congrArg Client.init hf; exact h0
    · have h0 := congrArg Client.term_lns hf; exact h0
    · have h0 := congrArg Client.term_cls hf; exact h0
  · rw [if_neg hr] at h
    have hr0 : s.restricted = 0 := not_not.1 hr
    cases hc : s.init_cmd with
    | some raw =>
      rw [hc] at h
      simp only at h
      obtain ⟨s1, h1, h2⟩ := bind_eq_ret _ _ _ h
      cases h2
      unfold submit_init_command at h1
      cases he : ext.cmd_expand raw with
      | none => rw [he] at h1; cases h1
      | some cmd =>
        rw [he] at h1
        simp only at h1
        obtain ⟨hw, hb, -, hf⟩ := submit_server_command_ret s s1 _ h1
        right; left
        refine ⟨hr0, ⟨raw, cmd, rfl, he, hw⟩, ?_, rfl, hb, ?_, ?_, ?_⟩
        · have h0 := congrArg Client.restricted hf
          exact h0.trans hr0
        · have h0 := congrArg Client.init hf; exact h0
        · have h0 := congrArg Client.term_lns hf; exact h0
        · have h0 := congrArg Client.term_cls hf; exact h0
    | none =>
      rw [hc] at h
      simp only at h
      by_cases ho : s.once ≠ 0
      · rw [if_pos ho] at h; cases h
      · rw [if_neg ho] at h
        obtain ⟨s1, h1, h2⟩ := bind_eq_ret _ _ _ h
        cases h2
        right; right
        exact ⟨hr0, rfl, not_not.1 ho, rfl, s1, h1, rfl, rfl⟩

theorem select_loop_head_ret (ext : Externals) (s s' : Client)
    (h : select_loop_head ext s = .ret s') :
    (¬ (s.init ≠ 0 ∧ s.busy = 0) ∧ s' = s) ∨
      (s.init ≠ 0 ∧ s.busy = 0 ∧ init_commands ext s = .ret s') := by
  unfold select_loop_head at h
  by_cases hg : s.init ≠ 0 ∧ s.busy = 0
  · rw [if_pos hg] at h
    exact Or.inr ⟨hg.1, hg.2, h⟩
  · rw [if_neg hg] at h
    cases h
    exact Or.inl ⟨hg, rfl⟩

/-- After the head of an iteration, a clear `busy` means the initial sequence
is over. -/
theorem select_loop_head_idle (ext : Externals) (s s' : Client)
    (h : select_loop_head ext s = .ret s') (hb : s'.busy = 0) : s'.init = 0 := by
  rcases select_loop_head_ret ext s s' h with ⟨hg, e⟩ | ⟨-, -, hc⟩
  · subst e
    by_contra hi
    exact hg ⟨hi, hb⟩
  · rcases init_commands_ret ext s s' hc with h1 | h1 | h1
    · rw [h1.2.2.2.2.1] at hb; exact absurd hb (by decide)
    · rw [h1.2.2.2.2.1] at hb; exact absurd hb (by decide)
    · exact h1.2.2.2.1

theorem server_read_keeps (s s' : Client) (h : server_read s = .ret s') :
    read_frame s' = read_frame s := by
  obtain ⟨_, -, -, -, hf⟩ := server_read_redo_returns s.reads s s' h
  exact hf

theorem startup_phase_congr (ext : Externals) (s0 s s' : Client)
    (hr : s'.restricted = s.restricted) (hc : s'.init_cmd = s.init_cmd)
    (hw : s'.wire = s.wire) (h : startup_phase ext s0 s) : startup_phase ext s0 s' := by
  unfold startup_phase at h ⊢
  rw [hr, hc, hw]
  exact h

theorem startup_phase_read (ext : Externals) (s0 s s' : Client)
    (hf : read_frame s' = read_frame s) (h : startup_phase ext s0 s) :
    startup_phase ext s0 s' := by
  apply startup_phase_congr ext s0 s s' _ _ _ h
  · have h0 := congrArg Client.restricted hf; exact h0
  · have h0 := congrArg Client.init_cmd hf; exact h0
  · have h0 := congrArg Client.wire hf; exact h0

/-- One call of `init_commands` moves the startup sequence one phase on. -/
theorem startup_phase_init_commands (ext : Externals) (s0 s s' : Client)
    (hp : startup_phase ext s0 s) (h : init_commands ext s = .ret s') (hi : s'.init ≠ 0) :
    startup_phase ext s0 s' ∧ s'.busy = 1 := by
  rcases init_commands_ret ext s s' h with h1 | h1 | h1
  · obtain ⟨hr, hw, hr', hc, hb, -⟩ := h1
    refine ⟨?_, hb⟩
    rcases hp with ⟨p1, p2, p3⟩ | ⟨-, p2, -⟩ | ⟨p1, -⟩
    · right; left
      refine ⟨by rw [← p1]; exact hr, hr', hc.trans p2, ?_⟩
      rw [hw, p3]; rfl
    · exact absurd p2 hr
    · exact absurd p1 hr
  · obtain ⟨hr, ⟨raw, cmd, hc, he, hw⟩, hr', hc', hb, -⟩ := h1
    refine ⟨?_, hb⟩
    right; right
    rcases hp with ⟨p1, p2, p3⟩ | ⟨q0, -, p2, p3⟩ | ⟨-, p2, -⟩
    · refine ⟨hr', hc', raw, cmd, by rw [← p2]; exact hc, he, ?_⟩
      have h00 : ¬ s0.restricted ≠ 0 := by rw [← p1]; exact fun hne => hne hr
      rw [hw, p3, if_neg h00]
    · refine ⟨hr', hc', raw, cmd, by rw [← p2]; exact hc, he, ?_⟩
      rw [hw, p3, if_pos q0]
    · rw [p2] at hc; cases hc
  · exact absurd h1.2.2.2.1 hi

/-- One iteration of `select_loop` keeps the startup sequence in order, as long
as `input_read` does not bring `init` back. -/
theorem startup_phase_turn (ext : Externals) (ir : Client → Outcome Client)
    (hir : ∀ a b, ir a = .ret b → a.init = 0 → b.init = 0)
    (s0 s s' : Client) (ev : LoopSelect)
    (hp : s.init ≠ 0 → startup_phase ext s0 s)
    (h : select_loop_turn ext ir s ev = .ret s') :
    s'.init ≠ 0 → startup_phase ext s0 s' := by
  unfold select_loop_turn at h
  obtain ⟨s1, h1, h2⟩ := bind_eq_ret _ _ _ h
  have hp1 : s1.init ≠ 0 → startup_phase ext s0 s1 ∧ s1.busy ≠ 0 := by
    intro hi1
    rcases select_loop_head_ret ext s s1 h1 with ⟨hg, e⟩ | ⟨hi, -, hc⟩
    · subst e
      refine ⟨hp hi1, fun hb => hg ⟨hi1, hb⟩⟩
    · obtain ⟨q1, q2⟩ := startup_phase_init_commands ext s0 s s1 (hp hi) hc hi1
      exact ⟨q1, by rw [q2]; decide⟩
  intro hi'
  cases ev with
  | eintr =>
    simp only at h2
    cases h2
    exact (hp1 hi').1
  | error => simp only at h2; cases h2
  | ready stdin server =>
    simp only at h2
    by_cases hin : stdin = true ∧ stdin_polled s1 = true
    · rw [if_pos hin] at h2
      have hb1 : s1.busy = 0 := by
        have := hin.2
        unfold stdin_polled at this
        exact of_decide_eq_true this
      have hi1 : s1.init = 0 := by
        by_contra hne
        exact (hp1 hne).2 hb1
      exact absurd (hir s1 s' h2 hi1) hi'
    · rw [if_neg hin] at h2
      by_cases hsv : server = true
      · rw [if_pos hsv] at h2
        have hf := server_read_keeps s1 s' h2
        have hi1 : s1.init ≠ 0 := by
          have h0 := congrArg Client.init hf
          have h00 : s'.init = s1.init := h0
          rw [← h00]; exact hi'
        exact startup_phase_read ext s0 s1 s' hf (hp1 hi1).1
      · rw [if_neg hsv] at h2
        cases h2
        exact (hp1 hi').1

theorem startup_phase_turns (ext : Externals) (ir : Client → Outcome Client)
    (hir : ∀ a b, ir a = .ret b → a.init = 0 → b.init = 0) (s0 : Client)
    (evs : List LoopSelect) :
    ∀ s s' : Client, (s.init ≠ 0 → startup_phase ext s0 s) →
      select_loop_turns ext ir s evs = .ret s' → s'.init ≠ 0 → startup_phase ext s0 s' := by
  induction evs with
  | nil =>
    intro s s' hp h
    simp only [select_loop_turns] at h
    cases h
    exact hp
  | cons ev evs ih =>
    intro s s' hp h
    simp only [select_loop_turns] at h
    obtain ⟨s1, h1, h2⟩ := bind_eq_ret _ _ _ h
    exact ih s1 s' (startup_phase_turn ext ir hir s0 s s1 ev hp h1) h2

/-- C17.  From any start of the client (`init` set, nothing sent yet) and over
any run of `select_loop`, as long as the initial sequence lasts the bytes
written to the socket are: nothing; or `restrict` and a newline, if restricted
mode was requested, the flag being clear from then on; or that followed by the
expanded batch command and a newline, `init_cmd` being clear from then on.  So
each is sent at most once and in this order.  The head of an iteration writes
to the socket only when `init` is set and `busy` is clear, `server_read` never
does, and `busy` goes from set to clear only on a terminal coded reply. -/
theorem startup_order (ext : Externals) (ir : Client → Outcome Client) (s0 s' : Client)
    (evs : List LoopSelect)
    (hir : ∀ a b, ir a = .ret b → a.init = 0 → b.init = 0)
    (hw : s0.wire = [])
    (hrun : select_loop_turns ext ir s0 evs = .ret s') :
    (s'.init ≠ 0 → startup_phase ext s0 s') ∧
      (∀ t t', select_loop_head ext t = .ret t' → t'.wire ≠ t.wire →
        t.init ≠ 0 ∧ t.busy = 0) ∧
      (∀ t t', server_read t = .ret t' → t'.wire = t.wire) ∧
      (∀ t t' x, server_got_reply t x = .ret t' → t.busy ≠ 0 → t'.busy = 0 →
        classify x = .coded_terminal) := by
  refine ⟨?_, ?_, ?_, ?_⟩
  · exact startup_phase_turns ext ir hir s0 evs s0 s' (fun _ => Or.inl ⟨rfl, rfl, hw⟩) hrun
  · intro t t' h hne
    rcases select_loop_head_ret ext t t' h with ⟨-, e⟩ | ⟨hi, hb, -⟩
    · rw [e] at hne; exact absurd rfl hne
    · exact ⟨hi, hb⟩
  · intro t t' h
    have h0 := congrArg Client.wire (server_read_keeps t t' h)
    exact h0
  · intro t t' x h hb hb'
    by_contra hk
    rw [server_got_reply_eq_handle] at h
    have := (handle_fields _ _ _ _ h).1 hk
    rw [this] at hb'
    exact hb hb'

/-- C17 on a launch with restricted mode and the batch command `show status`:
the banner arrives, `restrict` is sent, its reply arrives, the batch command is
sent. -/
theorem startup_order_witness :
    select_loop_turns ⟨some, .ret⟩ .ret
        { Client.initial with
          restricted := 1, once := 1, init_cmd := some (bytes "show status"),
          reads := [.data (bytes "0001 BIRD ready.\n"), .data (bytes "0016 Access restricted\n")],
          writes := [.wrote 9, .wrote 12] }
        [.ready false true, .ready false true, .eintr] =
      .ret { Client.initial with
        once := 1, num_lines := 2, last_code := 16,
        stdout := bytes "BIRD ready.\nAccess restricted\n",
        wire := bytes "restrict\nshow status\n" } ∧
      startup_phase ⟨some, .ret⟩
        { Client.initial with
          restricted := 1, once := 1, init_cmd := some (bytes "show status"),
          reads := [.data (bytes "0001 BIRD ready.\n"), .data (bytes "0016 Access restricted\n")],
          writes := [.wrote 9, .wrote 12] }
        { Client.initial with
          once := 1, num_lines := 2, last_code := 16,
          stdout := bytes "BIRD ready.\nAccess restricted\n",
          wire := bytes "restrict\nshow status\n" } := by
  have hrun : select_loop_turns ⟨some, .ret⟩ .ret
      { Client.initial with
        restricted := 1, once := 1, init_cmd := some (bytes "show status"),
        reads := [.data (bytes "0001 BIRD ready.\n"), .data (bytes "0016 Access restricted\n")],
        writes := [.wrote 9, .wrote 12] }
      [.ready false true, .ready false true, .eintr] =
      .ret { Client.initial with
        once := 1, num_lines := 2, last_code := 16,
        stdout := bytes "BIRD ready.\nAccess restricted\n",
        wire := bytes "restrict\nshow status\n" } := by decide
  refine ⟨hrun, ?_⟩
  exact (startup_order ⟨some, .ret⟩ .ret _ _ _
    (fun a b hab h0 => by cases hab; exact h0) rfl hrun).1 (by decide)

/-- C18.  In an iteration of `select_loop`, after its head: descriptor 0 is in
the set handed to `select` exactly when `busy` is clear; when it is, the initial
sequence is over; while `busy` is set the iteration does not depend on
`input_read`, which is not called; and when `busy` is clear and descriptor 0 is
readable, `input_read` is what the iteration calls. -/
theorem stdin_polled_when_idle (ext : Externals) (ir : Client → Outcome Client)
    (s s1 : Client) (h : select_loop_head ext s = .ret s1) :
    (stdin_polled s1 = true ↔ s1.busy = 0) ∧
      (stdin_polled s1 = true → s1.init = 0) ∧
      (s1.busy ≠ 0 → ∀ (ir2 : Client → Outcome Client) (ev : LoopSelect),
        select_loop_turn ext ir s ev = select_loop_turn ext ir2 s ev) ∧
      (s1.busy = 0 → ∀ server : Bool,
        select_loop_turn ext ir s (.ready true server) = ir s1) := by
  have hiff : stdin_polled s1 = true ↔ s1.busy = 0 := by
    unfold stdin_polled
    exact decide_eq_true_iff
  refine ⟨hiff, fun hp => select_loop_head_idle ext s s1 h (hiff.1 hp), ?_, ?_⟩
  · intro hb ir2 ev
    have hnp : ¬ stdin_polled s1 = true := fun hp => hb (hiff.1 hp)
    unfold select_loop_turn
    rw [h]
    simp only [Outcome.bind]
    cases ev with
    | eintr => rfl
    | error => rfl
    | ready stdin server =>
      simp only
      have hn : ¬ (stdin = true ∧ stdin_polled s1 = true) := fun hc => hnp hc.2
      rw [if_neg hn, if_neg hn]
  · intro hb server
    unfold select_loop_turn
    rw [h]
    simp only [Outcome.bind, hiff.2 hb, and_self, if_true]

/-- C18 while a command is in flight: terminal input is readable and so is the
socket, and the iteration reads the socket. -/
theorem stdin_polled_when_idle_witness :
    stdin_polled { Client.initial with init := 0, reads := [.data (bytes " a\n")] } = false ∧
      select_loop_turn ⟨some, .ret⟩ (fun _ => .die)
          { Client.initial with init := 0, reads := [.data (bytes " a\n")] }
          (.ready true true) =
        .ret { Client.initial with init := 0, stdout := bytes "a\n" } := by
  have h := (stdin_polled_when_idle ⟨some, .ret⟩ (fun _ => .die)
    { Client.initial with init := 0, reads := [.data (bytes " a\n")] }
    { Client.initial with init := 0, reads := [.data (bytes " a\n")] } (by decide)).2.2.1
    (by decide) .ret (.ready true true)
  refine ⟨by decide, ?_⟩
  rw [h]
  decide

theorem server_read_frames_length (chunks : List (List Nat)) :
    ∀ buf : List Nat, buf.length < SERVER_READ_BUF_LEN → reads_fit buf chunks = true →
      (server_read_frames buf chunks).2.length < SERVER_READ_BUF_LEN := by
  induction chunks with
  | nil => intro buf hb _; exact hb
  | cons c cs ih =>
    intro buf hb hfit
    simp only [reads_fit, Bool.and_eq_true, decide_eq_true_eq] at hfit
    rw [server_read_frames_cons]
    exact ih _ (server_read_frame_length buf c (Nat.le_of_lt hb) hfit.1.2) hfit.2

/-- C19.  A call of `server_read` that returns leaves the read cursor strictly
below the capacity of the buffer, so the next `read` is asked for at least one
byte; this holds after any number of calls from the empty buffer.  A `read`
that returns 0 ends the client as a closed connection. -/
theorem cursor_below_capacity (s s' : Client)
    (hb : s.server_read_buf.length ≤ SERVER_READ_BUF_LEN) (h : server_read s = .ret s') :
    s'.server_read_buf.length < SERVER_READ_BUF_LEN ∧
      1 ≤ SERVER_READ_BUF_LEN - s'.server_read_buf.length ∧
      (∀ (chunks : List (List Nat)) (t t' : Client), t.server_read_buf = [] →
        server_read_calls t chunks = .ret t' →
        t'.server_read_buf.length < SERVER_READ_BUF_LEN) ∧
      (∀ (t : Client) (rs : List ReadResult),
        server_read { t with reads := .eof :: rs } = .die ∧
          server_read { t with reads := .data [] :: rs } = .die) := by
  obtain ⟨bs, -, h2, hbuf, -⟩ := server_read_redo_returns s.reads s s' h
  have hlt : s'.server_read_buf.length < SERVER_READ_BUF_LEN := by
    rw [hbuf]
    exact server_read_frame_length s.server_read_buf bs hb h2
  refine ⟨hlt, by omega, ?_, ?_⟩
  · intro chunks t t' ht hrun
    obtain ⟨hfit, hbuf'⟩ := server_read_calls_buf chunks t t' hrun
    rw [hbuf']
    apply server_read_frames_length chunks _ _ hfit
    rw [ht]
    exact cap_pos
  · intro t rs
    exact ⟨rfl, rfl⟩

/-- C19 on the first read of a session, which brings the banner `0001 ok` and
its newline into the empty buffer: the line is handed over and the cursor is
back at 0. -/
theorem cursor_below_capacity_witness :
    ∃ s', server_read { Client.initial with reads := [.data (bytes "0001 ok\n")] } = .ret s' ∧
      s'.server_read_buf.length < SERVER_READ_BUF_LEN := by
  have hrun : server_read { Client.initial with reads := [.data (bytes "0001 ok\n")] } =
      .ret { Client.initial with busy := 0, last_code := 1, stdout := bytes "ok\n" } := by
    decide
  exact ⟨_, hrun, (cursor_below_capacity _ _ (by decide) hrun).1⟩

theorem more_redo_defined (s : Client) (ks : List Int) : more_redo s ks ≠ .undefined := by
  induction ks with
  | nil => intro h; cases h
  | cons k ks ih =>
    unfold more_redo
    split_ifs
    · intro h; cases h
    · intro h; cases h
    · intro h; cases h
    · exact ih

theorem more_defined (s : Client) : more s ≠ .undefined := by
  unfold more
  simp only
  intro h
  cases hr : more_redo { s with stdout := s.stdout ++ bytes "--More--\r" } s.keys with
  | ret a => rw [hr] at h; cases h
  | exit st => rw [hr] at h; cases h
  | die => rw [hr] at h; cases h
  | hang => rw [hr] at h; cases h
  | undefined => exact more_redo_defined _ _ hr

theorem pager_defined (s : Client) (len : Int) (h : s.init = 0 → s.term_cls ≠ 0) :
    pager s len ≠ .undefined := by
  simp only [pager]
  split_ifs with hc hz
  · exact absurd hz (h hc.2.2.2.1)
  · exact more_defined _
  · intro h0; cases h0
  · intro h0; cases h0

theorem handle_defined (k : Kind) (s : Client) (x : List Nat)
    (h : s.init = 0 → s.term_cls ≠ 0) : handle k s x ≠ .undefined := by
  have hP : ∀ t : List Nat, (PRINTF s t).1.init = 0 → (PRINTF s t).1.term_cls ≠ 0 := by
    intro t
    have hf := PRINTF_keeps s t
    have e1 : (PRINTF s t).1.init = s.init := by
      have h0 := congrArg Client.init hf; exact h0
    have e2 : (PRINTF s t).1.term_cls = s.term_cls := by
      have h0 := congrArg Client.term_cls hf; exact h0
    rw [e1, e2]
    exact h
  cases k with
  | async => exact pager_defined _ _ (hP _)
  | continuation => exact pager_defined _ _ (hP _)
  | coded_terminal => intro h0; cases h0
  | coded_nonterminal =>
    simp only [handle]
    apply pager_defined
    have hf := coded_print_keeps s ((reply_code x).getD 0)
      ((if s.verbose ≠ 0 then x else x.drop 5) ++ [10])
    have e1 : (if (reply_code x).getD 0 ≠ 0 then
        PRINTF s ((if s.verbose ≠ 0 then x else x.drop 5) ++ [10]) else (s, 0)).1.init =
        s.init := by
      have h0 := congrArg Client.init hf; exact h0
    have e2 : (if (reply_code x).getD 0 ≠ 0 then
        PRINTF s ((if s.verbose ≠ 0 then x else x.drop 5) ++ [10]) else (s, 0)).1.term_cls =
        s.term_cls := by
      have h0 := congrArg Client.term_cls hf; exact h0
    show (if (reply_code x).getD 0 ≠ 0 then
        PRINTF s ((if s.verbose ≠ 0 then x else x.drop 5) ++ [10]) else (s, 0)).1.init = 0 →
      (if (reply_code x).getD 0 ≠ 0 then
        PRINTF s ((if s.verbose ≠ 0 then x else x.drop 5) ++ [10]) else (s, 0)).1.term_cls ≠ 0
    rw [e1, e2]
    exact h
  | malformed => exact pager_defined _ _ (hP _)

/-- One iteration of `select_loop` keeps the terminal geometry positive once
the initial sequence is over, as long as `input_read` leaves `init`, `term_lns`
and `term_cls` alone. -/
theorem geometry_turn (ext : Externals) (ir : Client → Outcome Client)
    (hir : ∀ a b, ir a = .ret b →
      b.init = a.init ∧ b.term_lns = a.term_lns ∧ b.term_cls = a.term_cls)
    (s s' : Client) (ev : LoopSelect)
    (hg : s.init = 0 → 1 ≤ s.term_lns ∧ 1 ≤ s.term_cls)
    (h : select_loop_turn ext ir s ev = .ret s') :
    s'.init = 0 → 1 ≤ s'.term_lns ∧ 1 ≤ s'.term_cls := by
  unfold select_loop_turn at h
  obtain ⟨s1, h1, h2⟩ := bind_eq_ret _ _ _ h
  have hg1 : s1.init = 0 → 1 ≤ s1.term_lns ∧ 1 ≤ s1.term_cls := by
    rcases select_loop_head_ret ext s s1 h1 with ⟨-, e⟩ | ⟨hi, -, hc⟩
    · rw [e]; exact hg
    · intro hi1
      rcases init_commands_ret ext s s1 hc with q | q | q
      · rw [q.2.2.2.2.2.1] at hi1; exact absurd hi1 hi
      · rw [q.2.2.2.2.2.1] at hi1; exact absurd hi1 hi
      · obtain ⟨-, -, -, -, t, -, e1, e2⟩ := q
        rw [e1, e2]
        constructor <;> split_ifs <;> omega
  cases ev with
  | eintr => simp only at h2; cases h2; exact hg1
  | error => simp only at h2; cases h2
  | ready stdin server =>
    simp only at h2
    by_cases hin : stdin = true ∧ stdin_polled s1 = true
    · rw [if_pos hin] at h2
      obtain ⟨e0, e1, e2⟩ := hir s1 s' h2
      rw [e0, e1, e2]
      exact hg1
    · rw [if_neg hin] at h2
      by_cases hsv : server = true
      · rw [if_pos hsv] at h2
        have hf := server_read_keeps s1 s' h2
        have e0 : s'.init = s1.init := by
          have h0 := congrArg Client.init hf; exact h0
        have e1 : s'.term_lns = s1.term_lns := by
          have h0 := congrArg Client.term_lns hf; exact h0
        have e2 : s'.term_cls = s1.term_cls := by
          have h0 := congrArg Client.term_cls hf; exact h0
        rw [e0, e1, e2]
        exact hg1
      · rw [if_neg hsv] at h2
        cases h2
        exact hg1

/-- C20.  A call of `init_commands` made while `init` is set, as `select_loop`
makes it, ends the initial sequence only with `term_lns` and `term_cls` at least
1: what the front end left non-positive is replaced by 25 and 80.  A state with
`init` clear and a non-zero `term_cls` never makes `server_got_reply` divide by
zero, and over any run of `select_loop` the geometry stays positive whenever
`init` is clear, as long as `input_read` leaves these three globals alone. -/
theorem geometry_positive (ext : Externals) (s s' : Client) (hi : s.init ≠ 0)
    (h : init_commands ext s = .ret s') :
    (s'.init = 0 →
        1 ≤ s'.term_lns ∧ 1 ≤ s'.term_cls ∧
          ∃ s1, ext.input_init s = .ret s1 ∧
            s'.term_lns = (if s1.term_lns > 0 then s1.term_lns else 25) ∧
            s'.term_cls = (if s1.term_cls > 0 then s1.term_cls else 80)) ∧
      (∀ (t : Client) (x : List Nat), (t.init = 0 → 1 ≤ t.term_cls) →
        server_got_reply t x ≠ .undefined) ∧
      (∀ (ir : Client → Outcome Client) (evs : List LoopSelect) (t t' : Client),
        (∀ a b, ir a = .ret b →
          b.init = a.init ∧ b.term_lns = a.term_lns ∧ b.term_cls = a.term_cls) →
        (t.init = 0 → 1 ≤ t.term_lns ∧ 1 ≤ t.term_cls) →
        select_loop_turns ext ir t evs = .ret t' →
        (t'.init = 0 → 1 ≤ t'.term_lns ∧ 1 ≤ t'.term_cls)) := by
  refine ⟨?_, ?_, ?_⟩
  · intro hi'
    rcases init_commands_ret ext s s' h with q | q | q
    · rw [q.2.2.2.2.2.1] at hi'; exact absurd hi' hi
    · rw [q.2.2.2.2.2.1] at hi'; exact absurd hi' hi
    · obtain ⟨-, -, -, -, t, ht, e1, e2⟩ := q
      refine ⟨?_, ?_, t, ht, e1, e2⟩
      · rw [e1]; split_ifs <;> omega
      · rw [e2]; split_ifs <;> omega
  · intro t x ht
    rw [server_got_reply_eq_handle]
    apply handle_defined
    intro h0
    have := ht h0
    omega
  · intro ir evs
    induction evs with
    | nil =>
      intro t t' _ hg hrun
      simp only [select_loop_turns] at hrun
      cases hrun
      exact hg
    | cons ev evs ih =>
      intro t t' hir hg hrun
      simp only [select_loop_turns] at hrun
      obtain ⟨t1, h1, h2⟩ := bind_eq_ret _ _ _ hrun
      exact ih t1 t' hir (geometry_turn ext ir hir t t1 ev hg h1) h2

/-- C20 when the front end reports no geometry: `init_commands` ends the initial
sequence with 25 rows and 80 columns. -/
theorem geometry_positive_witness :
    init_commands ⟨some, .ret⟩ { Client.initial with busy := 0 } =
        .ret { Client.initial with busy := 0, init := 0, term_lns := 25, term_cls := 80 } ∧
      (1 : Int) ≤ ({ Client.initial with
        busy := 0, init := 0, term_lns := 25, term_cls := 80 } : Client).term_cls := by
  have hrun : init_commands ⟨some, .ret⟩ { Client.initial with busy := 0 } =
      .ret { Client.initial with busy := 0, init := 0, term_lns := 25, term_cls := 80 } := by
    decide
  exact ⟨hrun, ((geometry_positive ⟨some, .ret⟩ _ _ (by decide) hrun).1 rfl).2.1⟩

end BirdClient
